import Mathlib

/-!
Shallow embedding of the trade-simulation core of the Tradingoff repository
(src/python/MNQ_4h.py and the strategy-variant scripts
ym_opr45_officiel.py, mnq_opr1630_officiel.py, cl_oprlondon_officiel.py).

Prices are modelled as rationals, timestamps as natural numbers counting
whole minutes.  Python dictionaries used as ad-hoc records are modelled as
structures; Python `None`-able values as `Option`.  Division in the source
is always guarded so the total division of `ℚ` coincides with it on every
reachable branch.
-/

/-- Raw minute bar (source dataclass `MinuteBar`).  The source field `open`
is a Lean keyword, so it is spelled `opn` here; `time` is in minutes. -/
structure MinuteBar where
  time : ℕ
  opn : ℚ
  high : ℚ
  low : ℚ
  close : ℚ
  deriving DecidableEq, Repr

/-- Aggregated candle (source dataclass `Bar`).  `endT` mirrors the source
field `end` (a Lean keyword), `opn` mirrors `open`. -/
structure Bar where
  start : ℕ
  endT : ℕ
  opn : ℚ
  high : ℚ
  low : ℚ
  close : ℚ
  deriving DecidableEq, Repr

/-- Immutable record of a resolved trade (source dataclass `TradeResult`). -/
structure TradeResult where
  day : ℕ
  direction : String
  entry_time : ℕ
  entry_price : ℚ
  stop_price : ℚ
  target_price : ℚ
  exit_time : ℕ
  exit_price : ℚ
  rr : ℚ
  pnl_r : ℚ
  exit_reason : String
  range_high : ℚ
  range_low : ℚ
  breakout_time : Option ℕ
  breakout_price : Option ℚ
  deriving DecidableEq, Repr

/-- The `active_trade` working dictionary built in `generate_trade_log`. -/
structure ActiveTrade where
  direction : String
  entry_time : ℕ
  entry_bar_end : ℕ
  entry_price : ℚ
  stop_price : ℚ
  target_price : ℚ
  risk : ℚ
  rr : ℚ
  entry_mode : String
  range_high : ℚ
  range_low : ℚ
  breakout_time : Option ℕ
  breakout_price : Option ℚ
  deriving DecidableEq, Repr

/-- Result of `_check_trade_exit`: the source returns the pair
`(action, info)` where `action ∈ {"exit", "cancel", "hold"}` and `info`
carries price/pnl/reason in the `"exit"` case. -/
inductive ExitAction where
  | exit (price : ℚ) (pnl_r : ℚ) (reason : String)
  | cancel
  | hold
  deriving DecidableEq, Repr

/-- Embedding of `_check_trade_exit` (MNQ_4h.py lines 1585-1624). -/
def check_trade_exit (bar : Bar) (trade : ActiveTrade) (is_entry_bar : Bool) : ExitAction :=
  let stop_hit := if trade.direction = "long" then bar.low ≤ trade.stop_price
    else bar.high ≥ trade.stop_price
  let target_hit := if trade.direction = "long" then bar.high ≥ trade.target_price
    else bar.low ≤ trade.target_price
  if is_entry_bar then
    if trade.entry_mode = "open" then
      if stop_hit then .exit trade.stop_price (-1) "stop"
      else if target_hit then .exit trade.target_price trade.rr "target"
      else .hold
    else
      if stop_hit then .exit trade.stop_price (-1) "stop"
      else if target_hit then .hold
      else .hold
  else
    if stop_hit ∧ target_hit then .cancel
    else if stop_hit then .exit trade.stop_price (-1) "stop"
    else if target_hit then .exit trade.target_price trade.rr "target"
    else .hold

/-- Embedding of `_pnl_from_exit` (MNQ_4h.py lines 1704-1707). -/
def pnl_from_exit (exit_price : ℚ) (trade : ActiveTrade) : ℚ :=
  if trade.direction = "long" then (exit_price - trade.entry_price) / trade.risk
  else (trade.entry_price - exit_price) / trade.risk

/-- Fully-qualified retest event (source dataclass `CandidateTrade`). -/
structure CandidateTrade where
  day : ℕ
  direction : String
  range_high : ℚ
  range_low : ℚ
  range_size : ℚ
  range_end_time : ℕ
  breakout_time : ℕ
  breakout_price : ℚ
  breakout_close_pct : ℚ
  breakout_wick_pct : ℚ
  entry_bar_start : ℕ
  entry_bar_end : ℕ
  entry_bar_open : ℚ
  entry_bar_close : ℚ
  entry_bar_high : ℚ
  entry_bar_low : ℚ
  next_bar_start : Option ℕ
  next_bar_end : Option ℕ
  next_bar_open : Option ℚ
  next_bar_high : Option ℚ
  next_bar_low : Option ℚ
  next_bar_close : Option ℚ
  retest_size_pct : Option ℚ
  retest_body_inside_pct : Option ℚ
  wait_minutes : ℚ
  stop_price : ℚ
  post_times : List ℕ
  post_highs : List ℚ
  post_lows : List ℚ
  session_close_time : ℕ
  session_close_price : ℚ
  deriving DecidableEq, Repr

/-- Python `zip` of the three post-bar lists, truncating at the shortest. -/
def zip3 : List ℕ → List ℚ → List ℚ → List (ℕ × ℚ × ℚ)
  | t :: ts, h :: hs, l :: ls => (t, h, l) :: zip3 ts hs ls
  | _, _, _ => []

/-- The `TradeResult` literal repeated in `_simulate_trade_from_candidate`;
all occurrences differ only in exit time/price/pnl/reason. -/
def cand_result (c : CandidateTrade) (rr : ℚ) (entry_time : ℕ)
    (entry_price stop_price target_price : ℚ)
    (exit_time : ℕ) (exit_price pnl_r : ℚ) (exit_reason : String) : TradeResult :=
  { day := c.day
    direction := c.direction
    entry_time := entry_time
    entry_price := entry_price
    stop_price := stop_price
    target_price := target_price
    exit_time := exit_time
    exit_price := exit_price
    rr := rr
    pnl_r := pnl_r
    exit_reason := exit_reason
    range_high := c.range_high
    range_low := c.range_low
    breakout_time := some c.breakout_time
    breakout_price := some c.breakout_price }

/-- The post-entry scan loop of `_simulate_trade_from_candidate`
(MNQ_4h.py lines 1139-1212), including the session-close fallthrough. -/
def scan_post (c : CandidateTrade) (rr : ℚ) (entry_time : ℕ)
    (entry_price stop_price target_price risk : ℚ) :
    List (ℕ × ℚ × ℚ) → ℕ × Option TradeResult × String
  | [] =>
    let exit_time := c.session_close_time
    let exit_price := c.session_close_price
    let pnl_r := if c.direction = "long" then (exit_price - entry_price) / risk
      else (entry_price - exit_price) / risk
    (exit_time,
      some (cand_result c rr entry_time entry_price stop_price target_price
        exit_time exit_price pnl_r "session_close"),
      "session_close")
  | (time, high, low) :: rest =>
    let stop_hit := if c.direction = "long" then low ≤ stop_price else high ≥ stop_price
    let target_hit := if c.direction = "long" then high ≥ target_price else low ≤ target_price
    if stop_hit ∧ target_hit then (time, none, "cancel")
    else if stop_hit then
      (time,
        some (cand_result c rr entry_time entry_price stop_price target_price
          time stop_price (-1) "stop"),
        "stop")
    else if target_hit then
      (time,
        some (cand_result c rr entry_time entry_price stop_price target_price
          time target_price rr "target"),
        "target")
    else scan_post c rr entry_time entry_price stop_price target_price risk rest

/-- Shared tail of `_simulate_trade_from_candidate` once the entry bar data
has been selected (entry price/high/low and the post-bar iteration lists). -/
def sim_with_entry (c : CandidateTrade) (rr : ℚ) (entry_mode : String)
    (entry_time : ℕ) (entry_price entry_high entry_low : ℚ)
    (post : List (ℕ × ℚ × ℚ)) : ℕ × Option TradeResult × String :=
  let stop_price := c.stop_price
  let risk := |entry_price - stop_price|
  if risk ≤ 0 then (entry_time, none, "invalid")
  else
    let target_price := if c.direction = "short" then entry_price - rr * risk
      else entry_price + rr * risk
    let stop_hit := if c.direction = "long" then entry_low ≤ stop_price
      else entry_high ≥ stop_price
    let target_hit := if c.direction = "long" then entry_high ≥ target_price
      else entry_low ≤ target_price
    if entry_mode = "open" then
      if stop_hit then
        (entry_time,
          some (cand_result c rr entry_time entry_price stop_price target_price
            entry_time stop_price (-1) "stop"),
          "stop")
      else if target_hit then
        (entry_time,
          some (cand_result c rr entry_time entry_price stop_price target_price
            entry_time target_price rr "target"),
          "target")
      else scan_post c rr entry_time entry_price stop_price target_price risk post
    else
      if stop_hit then
        (entry_time,
          some (cand_result c rr entry_time entry_price stop_price target_price
            entry_time stop_price (-1) "stop"),
          "stop")
      else
        scan_post c rr entry_time entry_price stop_price target_price risk post

/-- Embedding of `_simulate_trade_from_candidate` (MNQ_4h.py lines
1024-1212).  In entry mode `"open"` the trade fills at the next bar's open
and the post-bar lists are iterated from index 1; in `"close"` mode it fills
at the retest bar's own close, a target hit on that bar being ignored. -/
def simulate_trade_from_candidate (c : CandidateTrade) (rr : ℚ)
    (entry_mode : String) : ℕ × Option TradeResult × String :=
  if entry_mode = "open" then
    match c.next_bar_start, c.next_bar_open, c.next_bar_high, c.next_bar_low with
    | some nstart, some nopen, some nhigh, some nlow =>
      sim_with_entry c rr entry_mode nstart nopen nhigh nlow
        (zip3 c.post_times.tail c.post_highs.tail c.post_lows.tail)
    | _, _, _, _ => (c.entry_bar_end, none, "invalid")
  else
    sim_with_entry c rr entry_mode c.entry_bar_end c.entry_bar_close
      c.entry_bar_high c.entry_bar_low
      (zip3 c.post_times c.post_highs c.post_lows)

/-- Breakout-excursion filter applied on an upward breakout in
`generate_trade_log` (MNQ_4h.py lines 761-766; also 737-741): the Python
short-circuit `range_size == 0 or min_breakout_pct is None or
(bar.close - range_high) / range_size >= min_breakout_pct`. -/
def breakout_pct_ok_above (bar : Bar) (range_high range_size : ℚ)
    (min_breakout_pct : Option ℚ) : Bool :=
  decide (range_size = 0) ||
    (match min_breakout_pct with
      | none => true
      | some p => decide ((bar.close - range_high) / range_size ≥ p))

/-- Mirror filter for a downward breakout (MNQ_4h.py lines 779-784). -/
def breakout_pct_ok_below (bar : Bar) (range_low range_size : ℚ)
    (min_breakout_pct : Option ℚ) : Bool :=
  decide (range_size = 0) ||
    (match min_breakout_pct with
      | none => true
      | some p => decide ((range_low - bar.close) / range_size ≥ p))

/-- Embedding of `_compute_breakout_close_pct` (MNQ_4h.py lines 978-990). -/
def compute_breakout_close_pct (bar : Bar) (direction : String)
    (range_high range_low range_size : ℚ) : ℚ :=
  if range_size ≤ 0 then 0
  else if direction = "short" then max 0 ((bar.close - range_high) / range_size)
  else max 0 ((range_low - bar.close) / range_size)

/-- The `min_breakout_pct` clause of `_candidate_filter_check`
(MNQ_4h.py line 1260): a reason is recorded (the candidate is rejected)
exactly when `breakout_close_pct < min_breakout_pct`. -/
def min_breakout_pct_rejects (min_breakout_pct : Option ℚ)
    (breakout_close_pct : ℚ) : Bool :=
  match min_breakout_pct with
  | none => false
  | some p => decide (breakout_close_pct < p)

/-- One step of the opening-range accumulation in `_read_day_data`
(MNQ_4h.py lines 531-533): `none` models the `-inf`/`inf` sentinel pair
that is never stored in a `DayData` (such days are dropped, lines 516/540). -/
def range_acc (acc : Option (ℚ × ℚ)) (m : MinuteBar) : Option (ℚ × ℚ) :=
  match acc with
  | none => some (m.high, m.low)
  | some (rh, rl) => some (max rh m.high, min rl m.low)

/-- Opening range of a day: fold of `range_acc` over the minute bars whose
timestamp is strictly before the range deadline (MNQ_4h.py line 531). -/
def opening_range (ms : List MinuteBar) (deadline : ℕ) : Option (ℚ × ℚ) :=
  (ms.filter fun m => m.time < deadline).foldl range_acc none

/-- Aggregate result of one parameter combination (source dataclass
`ComboSummary`); only the fields read by the RR selection in
`evaluate_rrs` are retained here, the filter-parameter fields being
constant across that loop. -/
structure ComboSummary where
  rr : ℚ
  trades : ℕ
  wins : ℕ
  losses : ℕ
  avg_r : ℚ
  total_r : ℚ
  win_rate : ℚ
  deriving DecidableEq, Repr

/-- The best-summary update condition of `evaluate_rrs`
(MNQ_4h.py lines 1769-1777). -/
def better_avg (s : ComboSummary) (best : Option ComboSummary) : Bool :=
  match best with
  | none => true
  | some b => decide (b.avg_r < s.avg_r) ||
      (decide (s.avg_r = b.avg_r) && decide (b.total_r < s.total_r))

/-- The RR-selection loop of `evaluate_rrs` (MNQ_4h.py lines 1740-1808),
abstracted over the per-RR `ComboSummary` list it iterates (one summary per
`rr` in grid order).  A summary with zero trades corresponds to an empty
`collected` list and is skipped before the best-summary update; a summary
meeting both constraints is returned immediately; after the loop the
tracked best is returned (with a console warning in the source) or the
`RuntimeError` is raised. -/
def evaluate_rrs_go (min_avg_r : ℚ) (min_trades : ℕ)
    (best : Option ComboSummary) :
    List ComboSummary → Except String ComboSummary
  | [] =>
    match best with
    | some b => .ok b
    | none => .error "No trades generated for the provided parameters."
  | s :: rest =>
    if s.trades = 0 then evaluate_rrs_go min_avg_r min_trades best rest
    else
      let best1 := if better_avg s best then some s else best
      if min_trades ≤ s.trades ∧ min_avg_r ≤ s.avg_r then .ok s
      else evaluate_rrs_go min_avg_r min_trades best1 rest

/-- Entry point of the RR selection of `evaluate_rrs`. -/
def evaluate_rrs_select (min_avg_r : ℚ) (min_trades : ℕ)
    (summaries : List ComboSummary) : Except String ComboSummary :=
  evaluate_rrs_go min_avg_r min_trades none summaries

/-- Filter and limit parameters of one grid point of the sweep (the keyword
arguments of `_run_parameter_combo`, MNQ_4h.py lines 1314-1337). -/
structure FilterParams where
  min_breakout_pct : Option ℚ
  max_breakout_pct : Option ℚ
  min_breakout_wick_pct : Option ℚ
  min_wait_minutes : Option ℚ
  max_wait_minutes : Option ℚ
  min_retest_size_pct : Option ℚ
  max_retest_size_pct : Option ℚ
  min_retest_body_inside_pct : Option ℚ
  max_entry_minutes_from_box_close : Option ℚ
  min_ticks_to_stop : Option ℚ
  max_ticks_to_stop : Option ℚ
  tick_size : ℚ
  max_trades_per_day : Option ℕ
  max_trades_per_direction : Option ℕ
  prevent_overlap : Bool
  deriving DecidableEq, Repr

/-- Embedding of `_candidate_filter_check` (MNQ_4h.py lines 1233-1311) as
its boolean outcome (`len(reasons) == 0`); the French reason strings are
reporting only.  `breakout_wick_pct` and `wait_minutes` are non-optional
fields of `CandidateTrade`, so their `None` sub-cases are unreachable. -/
def candidate_filter_check (c : CandidateTrade) (entry_time : ℕ)
    (session_close_time : Option ℕ)
    (min_breakout_pct max_breakout_pct : Option ℚ)
    (min_breakout_wick_pct max_breakout_wick_pct : Option ℚ)
    (min_wait_minutes max_wait_minutes : Option ℚ)
    (min_retest_size_pct max_retest_size_pct : Option ℚ)
    (min_retest_body_inside_pct : Option ℚ)
    (max_entry_minutes_from_box_close : Option ℚ) : Bool :=
  (match session_close_time with
    | some t => decide (entry_time < t)
    | none => true) &&
  (match max_entry_minutes_from_box_close with
    | some m => decide ((entry_time : ℚ) - (c.range_end_time : ℚ) ≤ m)
    | none => true) &&
  (match min_breakout_pct with
    | some p => decide (p ≤ c.breakout_close_pct)
    | none => true) &&
  (match max_breakout_pct with
    | some p => decide (c.breakout_close_pct ≤ p)
    | none => true) &&
  (match min_breakout_wick_pct with
    | some p => decide (p ≤ c.breakout_wick_pct)
    | none => true) &&
  (match max_breakout_wick_pct with
    | some p => decide (c.breakout_wick_pct ≤ p)
    | none => true) &&
  (match min_wait_minutes with
    | some p => decide (p ≤ c.wait_minutes)
    | none => true) &&
  (match max_wait_minutes with
    | some p => decide (c.wait_minutes ≤ p)
    | none => true) &&
  (match min_retest_size_pct with
    | some p => match c.retest_size_pct with
      | some v => decide (p ≤ v)
      | none => false
    | none => true) &&
  (match max_retest_size_pct with
    | some p => match c.retest_size_pct with
      | some v => decide (v ≤ p)
      | none => false
    | none => true) &&
  (match min_retest_body_inside_pct with
    | some p => match c.retest_body_inside_pct with
      | some v => decide (p ≤ v)
      | none => false
    | none => true)

/-- The stop-distance (ticks) clauses of `_run_parameter_combo`
(MNQ_4h.py lines 1400-1416): pass iff neither bound marks the combo failed. -/
def ticks_to_stop_ok (p : FilterParams) (entry_price stop_price : ℚ) : Bool :=
  let ticks : Option ℚ := if 0 < p.tick_size
    then some (|entry_price - stop_price| / p.tick_size) else none
  (match p.min_ticks_to_stop with
    | some m => match ticks with
      | some v => decide (m ≤ v)
      | none => false
    | none => true) &&
  (match p.max_ticks_to_stop with
    | some m => match ticks with
      | some v => decide (v ≤ m)
      | none => false
    | none => true)

/-- Per-day working state of the `_run_parameter_combo` candidate loop;
`collected` records which candidates were admitted (by index) together with
their `TradeResult`, mirroring `trade_collector`. -/
structure RunState where
  trades_taken : ℕ
  long_count : ℕ
  short_count : ℕ
  active_until : Option ℕ
  collected : List (ℕ × TradeResult)
  deriving DecidableEq, Repr

/-- The per-direction counter dictionary of `_run_parameter_combo`. -/
def run_dir_count (st : RunState) (d : String) : ℕ :=
  if d = "long" then st.long_count else st.short_count

/-- Increment of the per-direction counter dictionary. -/
def run_bump_dir (st : RunState) (d : String) : RunState :=
  if d = "long" then { st with long_count := st.long_count + 1 }
  else { st with short_count := st.short_count + 1 }

/-- The candidate loop of `_run_parameter_combo` for one day
(MNQ_4h.py lines 1356-1446).  The precomputed-outcome dictionary lookup
`precomputed[(day_start, idx, rr)]` is the stored result of
`simulate_trade_from_candidate` for that triple (`precompute_outcomes`,
lines 1002-1021), so it is inlined here; with a total precompute the
`"missing"` fallback is unreachable. -/
def run_combo_day (p : FilterParams) (rr : ℚ) (entry_mode : String) :
    ℕ → RunState → List CandidateTrade → RunState
  | _, st, [] => st
  | idx, st, c :: rest =>
    let skip := run_combo_day p rr entry_mode (idx + 1) st rest
    match (if entry_mode = "open" then c.next_bar_start else some c.entry_bar_end),
        (if entry_mode = "open" then c.next_bar_open else some c.entry_bar_close) with
    | some centry_time, some centry_price =>
      if p.prevent_overlap &&
          (match st.active_until with
            | some au => decide (centry_time < au)
            | none => false) then skip
      else
        let st1 := if p.prevent_overlap then { st with active_until := none } else st
        if (match p.max_trades_per_day with
            | some m => decide (m ≤ st1.trades_taken)
            | none => false) then st1
        else if (match p.max_trades_per_direction with
            | some m => decide (m ≤ run_dir_count st1 c.direction)
            | none => false) then run_combo_day p rr entry_mode (idx + 1) st1 rest
        else if ¬ (candidate_filter_check c centry_time (some c.session_close_time)
              p.min_breakout_pct p.max_breakout_pct
              p.min_breakout_wick_pct none
              p.min_wait_minutes p.max_wait_minutes
              p.min_retest_size_pct p.max_retest_size_pct
              p.min_retest_body_inside_pct
              p.max_entry_minutes_from_box_close = true
            ∧ ticks_to_stop_ok p centry_price c.stop_price = true) then
          run_combo_day p rr entry_mode (idx + 1) st1 rest
        else
          let outcome := simulate_trade_from_candidate c rr entry_mode
          let st2 := if p.prevent_overlap then { st1 with active_until := some outcome.1 }
            else st1
          match outcome.2.1 with
          | none => run_combo_day p rr entry_mode (idx + 1) st2 rest
          | some tr =>
            run_combo_day p rr entry_mode (idx + 1)
              { (run_bump_dir st2 c.direction) with
                trades_taken := st2.trades_taken + 1,
                collected := st2.collected ++ [(idx, tr)] } rest
    | _, _ => skip

/-- High/low/close data of one bar of the `trail` window in the
fixed-risk strategy variants (pandas rows indexed by timestamp). -/
structure HLBar where
  ts : ℕ
  high : ℚ
  low : ℚ
  close : ℚ
  deriving DecidableEq, Repr

/-- The bar-by-bar exit loop of `simulate_trade` in mnq_opr1630_officiel.py
(lines 225-257): the entry bar resolves on a stop touch only; afterwards the
optional break-even check may move the stop to the entry price before the
stop and target checks.  Returns `none` when the bars run out (the caller
then emits the `TIMEOUT` exit from the last trail bar, line 259). -/
def mnq_go (side : String) (entry_ts : ℕ) (entry tp be_trig : ℚ)
    (enable_be : Bool) (risk : ℚ) :
    ℚ → Bool → Bool → List HLBar → Option (ℕ × ℕ × ℚ × String × ℚ)
  | _, _, _, [] => none
  | stop, moved, true, b :: rest =>
    if side = "long" then
      if b.low ≤ stop then some (entry_ts, b.ts, stop, "SL", risk)
      else mnq_go side entry_ts entry tp be_trig enable_be risk stop moved false rest
    else
      if b.high ≥ stop then some (entry_ts, b.ts, stop, "SL", risk)
      else mnq_go side entry_ts entry tp be_trig enable_be risk stop moved false rest
  | stop, moved, false, b :: rest =>
    let hit_be : Bool := enable_be && !moved &&
      (if side = "long" then decide (b.high ≥ be_trig) else decide (b.low ≤ be_trig))
    let stop1 := if hit_be then entry else stop
    let moved1 := if hit_be then true else moved
    if side = "long" then
      if b.low ≤ stop1 then
        some (entry_ts, b.ts, stop1,
          (if moved1 ∧ stop1 = entry then "BE" else "SL"), risk)
      else if b.high ≥ tp then some (entry_ts, b.ts, tp, "TP", risk)
      else mnq_go side entry_ts entry tp be_trig enable_be risk stop1 moved1 false rest
    else
      if b.high ≥ stop1 then
        some (entry_ts, b.ts, stop1,
          (if moved1 ∧ stop1 = entry then "BE" else "SL"), risk)
      else if b.low ≤ tp then some (entry_ts, b.ts, tp, "TP", risk)
      else mnq_go side entry_ts entry tp be_trig enable_be risk stop1 moved1 false rest

/-- Realized R-multiple computed by the caller of `simulate_trade`
(mnq_opr1630_officiel.py line 366). -/
def mnq_r (side : String) (entry risk_pts exit_px : ℚ) : ℚ :=
  if side = "long" then (exit_px - entry) / risk_pts
  else (entry - exit_px) / risk_pts

/-- The bar-by-bar exit loop of `simulate_trade` in ym_opr45_officiel.py
(lines 222-257): on the first (entry) bar a simultaneous stop/target touch
and a lone stop touch both exit at the stop, a lone target touch is
ignored; later bars exit at whichever of stop (checked first) or target is
touched.  Returns `none` when the bars run out (`TIMEOUT` in the caller). -/
def ym_go (side : String) (entry_ts : ℕ) (stop tp risk : ℚ) :
    Bool → List HLBar → Option (ℕ × ℕ × ℚ × String × ℚ)
  | _, [] => none
  | true, b :: rest =>
    if side = "long" then
      if b.high ≥ tp ∧ b.low ≤ stop then some (entry_ts, b.ts, stop, "SL", risk)
      else if b.low ≤ stop then some (entry_ts, b.ts, stop, "SL", risk)
      else ym_go side entry_ts stop tp risk false rest
    else
      if b.low ≤ tp ∧ b.high ≥ stop then some (entry_ts, b.ts, stop, "SL", risk)
      else if b.high ≥ stop then some (entry_ts, b.ts, stop, "SL", risk)
      else ym_go side entry_ts stop tp risk false rest
  | false, b :: rest =>
    if side = "long" then
      if b.low ≤ stop then some (entry_ts, b.ts, stop, "SL", risk)
      else if b.high ≥ tp then some (entry_ts, b.ts, tp, "TP", risk)
      else ym_go side entry_ts stop tp risk false rest
    else
      if b.high ≥ stop then some (entry_ts, b.ts, stop, "SL", risk)
      else if b.low ≤ tp then some (entry_ts, b.ts, tp, "TP", risk)
      else ym_go side entry_ts stop tp risk false rest

/-- Per-day bookkeeping state of `generate_trade_log`: the emitted trade
list, the day's trade counters and the optional active trade. -/
structure GenLogState where
  trades : List TradeResult
  trades_taken : ℕ
  long_count : ℕ
  short_count : ℕ
  active_trade : Option ActiveTrade
  deriving DecidableEq, Repr

/-- The per-direction counter dictionary of `generate_trade_log`. -/
def glog_dir_count (st : GenLogState) (d : String) : ℕ :=
  if d = "long" then st.long_count else st.short_count

/-- The floored decrement `direction_counts[dir] = max(0, count - 1)`
(MNQ_4h.py lines 617-619). -/
def glog_dec_dir (st : GenLogState) (d : String) : GenLogState :=
  if d = "long" then { st with long_count := max 0 (st.long_count - 1) }
  else { st with short_count := max 0 (st.short_count - 1) }

/-- The `TradeResult` emitted by `generate_trade_log` on an `"exit"` action
(MNQ_4h.py lines 596-614). -/
def trade_result_of_exit (day : ℕ) (rr : ℚ) (t : ActiveTrade) (exit_time : ℕ)
    (price pnl_r : ℚ) (reason : String) : TradeResult :=
  { day := day
    direction := t.direction
    entry_time := t.entry_time
    entry_price := t.entry_price
    stop_price := t.stop_price
    target_price := t.target_price
    exit_time := exit_time
    exit_price := price
    rr := rr
    pnl_r := pnl_r
    exit_reason := reason
    range_high := t.range_high
    range_low := t.range_low
    breakout_time := t.breakout_time
    breakout_price := t.breakout_price }

/-- The active-trade block at the top of the bar loop of
`generate_trade_log` (MNQ_4h.py lines 592-623): on a bar strictly after the
entry bar the exit check runs; an `"exit"` appends a `TradeResult`, a
`"cancel"` decrements both counters (floored at 0) and discards the trade
without appending anything. -/
def process_active_bar (day : ℕ) (rr : ℚ) (bar : Bar) (st : GenLogState) :
    GenLogState :=
  match st.active_trade with
  | none => st
  | some t =>
    if t.entry_bar_end < bar.endT then
      match check_trade_exit bar t false with
      | .exit price pnl_r reason =>
        { st with
          trades := st.trades ++ [trade_result_of_exit day rr t bar.endT price pnl_r reason],
          active_trade := none }
      | .cancel =>
        { (glog_dec_dir st t.direction) with
          trades_taken := max 0 (st.trades_taken - 1),
          active_trade := none }
      | .hold => st
    else st

/-- Wall-clock 5-minute floor of a minute timestamp: the source
`bar.time.replace(minute=(bar.time.minute // 5) * 5, second=0,
microsecond=0)` expressed on absolute minutes (60 is a multiple of 5, so
flooring the minute-of-hour equals flooring the absolute minute count). -/
def floor5 (t : ℕ) : ℕ := 5 * (t / 5)

/-- State of the source class `FiveMinuteBuilder` (MNQ_4h.py lines
311-370).  `open_price`/`high`/`low`/`close` are `None` exactly while the
current bucket is empty. -/
structure FiveMinuteBuilder where
  bars : List Bar
  current_start : Option ℕ
  current_end : Option ℕ
  open_price : Option ℚ
  high : Option ℚ
  low : Option ℚ
  close : Option ℚ
  last_time : Option ℕ
  deriving DecidableEq, Repr

/-- `FiveMinuteBuilder.__init__`. -/
def fmb_init : FiveMinuteBuilder :=
  { bars := []
    current_start := none
    current_end := none
    open_price := none
    high := none
    low := none
    close := none
    last_time := none }

/-- `FiveMinuteBuilder._flush` (lines 348-370): emits a `Bar` only when the
current bucket holds data, then clears the OHLC accumulators. -/
def fmb_flush (s : FiveMinuteBuilder) : FiveMinuteBuilder :=
  match s.open_price, s.last_time with
  | some op, some lt =>
    let start := s.current_start.getD lt
    let endT := s.current_end.getD (start + 5)
    let bar : Bar :=
      { start := start
        endT := endT
        opn := op
        high := s.high.getD op
        low := s.low.getD op
        close := s.close.getD op }
    { s with
      bars := s.bars ++ [bar]
      open_price := none
      high := none
      low := none
      close := none }
  | _, _ => s

/-- The `while` loop of `FiveMinuteBuilder.add` (lines 329-332): while the
incoming bar's time has reached the current bucket's end, flush and advance
the bucket window by five minutes. -/
def fmb_advance (bar_time : ℕ) (s : FiveMinuteBuilder) : FiveMinuteBuilder :=
  match h : s.current_end with
  | none => s
  | some e =>
    if e ≤ bar_time then
      fmb_advance bar_time
        { fmb_flush s with current_start := some e, current_end := some (e + 5) }
    else s
termination_by bar_time + 5 - s.current_end.getD (bar_time + 5)
decreasing_by simp [h]; omega

/-- `FiveMinuteBuilder.add` (lines 322-342). -/
def fmb_add (m : MinuteBar) (s : FiveMinuteBuilder) : FiveMinuteBuilder :=
  let s1 := match s.current_start with
    | none => { s with current_start := some (floor5 m.time),
                       current_end := some (floor5 m.time + 5) }
    | some _ => s
  let s2 := fmb_advance m.time s1
  let s3 := match s2.open_price with
    | none => { s2 with open_price := some m.opn, high := some m.high, low := some m.low }
    | some _ => { s2 with high := s2.high.map fun x => max x m.high,
                          low := s2.low.map fun x => min x m.low }
  { s3 with close := some m.close, last_time := some m.time }

/-- `FiveMinuteBuilder.finalize` (lines 344-346). -/
def fmb_finalize (s : FiveMinuteBuilder) : List Bar :=
  (fmb_flush s).bars

/-- Full aggregation of a minute-bar stream, as `_read_day_data` uses the
builder: every bar is `add`ed in order, then `finalize` is called. -/
def five_minute_bars (ms : List MinuteBar) : List Bar :=
  fmb_finalize (ms.foldl (fun s m => fmb_add m s) fmb_init)

/-- Wall-clock 5-minute bucket index of a minute bar. -/
def bucket (m : MinuteBar) : ℕ := m.time / 5

/-- Helper for the termination of `group_runs`. -/
theorem length_dropWhile_le' {α : Type} (p : α → Bool) (l : List α) :
    (l.dropWhile p).length ≤ l.length := by
  induction l with
  | nil => simp [List.dropWhile]
  | cons x xs ih =>
    by_cases h : p x
    · simp [List.dropWhile, h]
      omega
    · simp [List.dropWhile, h]

/-- Specification-side grouping: the maximal consecutive runs of minute
bars sharing a wall-clock 5-minute bucket.  The constituents of each bucket
the builder emits, written independently of the builder. -/
def group_runs : List MinuteBar → List (List MinuteBar)
  | [] => []
  | m :: ms =>
    (m :: ms.takeWhile fun x => bucket x == bucket m) ::
      group_runs (ms.dropWhile fun x => bucket x == bucket m)
termination_by ms => ms.length
decreasing_by
  simp only [List.length_cons]
  have := length_dropWhile_le' (fun x => bucket x == bucket m) ms
  omega

/-- Last element of a list, with a default for the empty list. -/
def last_d {α : Type} : List α → α → α
  | [], d => d
  | x :: xs, _ => last_d xs x

/-- Specification-side aggregate of one nonempty bucket of constituents:
open from the first, the maximum of highs, the minimum of lows, close from
the last, bucket boundaries from the first constituent's wall-clock floor.
The `[]` case is arbitrary; `group_runs` never produces it. -/
def agg_bar : List MinuteBar → Bar
  | [] => { start := 0, endT := 5, opn := 0, high := 0, low := 0, close := 0 }
  | m :: ms =>
    { start := floor5 m.time
      endT := floor5 m.time + 5
      opn := m.opn
      high := ms.foldl (fun a x => max a x.high) m.high
      low := ms.foldl (fun a x => min a x.low) m.low
      close := (last_d ms m).close }

/-- Concrete long candidate used to evaluate the simulators: box
[90, 100], retest bar closing at 100, stop 98 (risk 2 at close entry),
first post-entry bar touching both stop and target for `rr = 1`
(target 102: high 103, low 97), second post-entry bar touching only the
target. -/
def ex_cand : CandidateTrade :=
  { day := 0
    direction := "long"
    range_high := 100
    range_low := 90
    range_size := 10
    range_end_time := 0
    breakout_time := 0
    breakout_price := 89
    breakout_close_pct := 0
    breakout_wick_pct := 0
    entry_bar_start := 0
    entry_bar_end := 0
    entry_bar_open := 100
    entry_bar_close := 100
    entry_bar_high := 100
    entry_bar_low := 99
    next_bar_start := some 1
    next_bar_end := some 2
    next_bar_open := some 100
    next_bar_high := some 100
    next_bar_low := some 99
    next_bar_close := some 100
    retest_size_pct := some 1
    retest_body_inside_pct := some 1
    wait_minutes := 5
    stop_price := 98
    post_times := [1, 2]
    post_highs := [103, 103]
    post_lows := [97, 100]
    session_close_time := 10
    session_close_price := 101 }

/-- Concrete active trade (long, entered at close, entry 100, stop 98,
target 102 for `rr = 2`). -/
def ex_trade : ActiveTrade :=
  { direction := "long"
    entry_time := 0
    entry_bar_end := 0
    entry_price := 100
    stop_price := 98
    target_price := 102
    risk := 2
    rr := 2
    entry_mode := "close"
    range_high := 100
    range_low := 90
    breakout_time := none
    breakout_price := none }

/-- Filter parameters with every filter and limit disabled (the sweep's
`None` grid entries), tick size 1/4 as in the source configuration. -/
def ex_params : FilterParams :=
  { min_breakout_pct := none
    max_breakout_pct := none
    min_breakout_wick_pct := none
    min_wait_minutes := none
    max_wait_minutes := none
    min_retest_size_pct := none
    max_retest_size_pct := none
    min_retest_body_inside_pct := none
    max_entry_minutes_from_box_close := none
    min_ticks_to_stop := none
    max_ticks_to_stop := none
    tick_size := 1/4
    max_trades_per_day := none
    max_trades_per_direction := none
    prevent_overlap := false }

/-- Initial per-day state of the `_run_parameter_combo` candidate loop. -/
def run_init : RunState :=
  { trades_taken := 0
    long_count := 0
    short_count := 0
    active_until := none
    collected := [] }

/-- Machine state of the builder while the current bucket holds the
nonempty constituent run `m :: r` of bucket index `b`, with the bars
`done` already emitted; used to relate the builder to `group_runs`. -/
def mid_state (done : List Bar) (b : ℕ) (m : MinuteBar) (r : List MinuteBar) :
    FiveMinuteBuilder :=
  { bars := done
    current_start := some (5 * b)
    current_end := some (5 * b + 5)
    open_price := some m.opn
    high := some (r.foldl (fun a x => max a x.high) m.high)
    low := some (r.foldl (fun a x => min a x.low) m.low)
    close := some ((last_d r m).close)
    last_time := some ((last_d r m).time) }

/-- The R-accounting contract of the specification for one resolved trade:
a target exit pays the requested `rr`, a stop exit pays exactly −1, and a
session-close exit pays the signed price move divided by the risk. -/
def pnl_spec (rr : ℚ) (tr : TradeResult) : Prop :=
  (tr.exit_reason = "target" → tr.pnl_r = rr) ∧
  (tr.exit_reason = "stop" → tr.pnl_r = -1) ∧
  (tr.exit_reason = "session_close" →
    tr.pnl_r = (if tr.direction = "long"
      then (tr.exit_price - tr.entry_price) / |tr.entry_price - tr.stop_price|
      else (tr.entry_price - tr.exit_price) / |tr.entry_price - tr.stop_price|))

/-- Lexicographic dominance on `(avg_r, total_r)`, the order in which
`evaluate_rrs` keeps its fallback best summary. -/
def combo_le (x b : ComboSummary) : Prop :=
  x.avg_r < b.avg_r ∨ (x.avg_r = b.avg_r ∧ x.total_r ≤ b.total_r)

/-- The trade produced for `ex_cand` with the double-touch post bar
replaced by a clean target hit (`rr = 1`, entry mode `"close"`). -/
def c2w_trade : TradeResult :=
  { day := 0
    direction := "long"
    entry_time := 0
    entry_price := 100
    stop_price := 98
    target_price := 102
    exit_time := 1
    exit_price := 102
    rr := 1
    pnl_r := 1
    exit_reason := "target"
    range_high := 100
    range_low := 90
    breakout_time := some 0
    breakout_price := some 89 }

/-- A qualifying summary appearing first in the RR grid. -/
def c7_s1 : ComboSummary :=
  { rr := 1, trades := 10, wins := 5, losses := 5, avg_r := 1/2, total_r := 5,
    win_rate := 50 }

/-- A strictly better qualifying summary appearing later in the RR grid. -/
def c7_s2 : ComboSummary :=
  { rr := 2, trades := 10, wins := 6, losses := 4, avg_r := 1, total_r := 10,
    win_rate := 60 }

/-- A summary with zero trades (its `collected` list is empty). -/
def c7_zero : ComboSummary :=
  { rr := 3, trades := 0, wins := 0, losses := 0, avg_r := 0, total_r := 0,
    win_rate := 0 }

/-- A non-qualifying summary that still produced trades. -/
def c7_nq : ComboSummary :=
  { rr := 4, trades := 2, wins := 0, losses := 2, avg_r := -1, total_r := -2,
    win_rate := 0 }

theorem scan_post_pnl (c : CandidateTrade) (rr : ℚ) (et : ℕ) (ep tp : ℚ)
    (l : List (ℕ × ℚ × ℚ)) (t : ℕ) (tr : TradeResult) (st : String)
    (h : scan_post c rr et ep c.stop_price tp (|ep - c.stop_price|) l = (t, some tr, st)) :
    pnl_spec rr tr := by
  induction l with
  | nil =>
    by_cases hd : c.direction = "long" <;>
      simp [scan_post, hd] at h <;>
      obtain ⟨_, htr, _⟩ := h <;>
      subst htr <;>
      simp [pnl_spec, cand_result, hd]
  | cons b rest ih =>
    obtain ⟨time, high, low⟩ := b
    by_cases hd : c.direction = "long"
    · by_cases h1 : low ≤ c.stop_price <;> by_cases h2 : high ≥ tp <;>
        simp [scan_post, hd, h1, h2] at h
      · obtain ⟨_, htr, _⟩ := h
        subst htr
        simp [pnl_spec, cand_result]
      · obtain ⟨_, htr, _⟩ := h
        subst htr
        simp [pnl_spec, cand_result]
      · exact ih h
    · by_cases h1 : high ≥ c.stop_price <;> by_cases h2 : low ≤ tp <;>
        simp [scan_post, hd, h1, h2] at h
      · obtain ⟨_, htr, _⟩ := h
        subst htr
        simp [pnl_spec, cand_result]
      · obtain ⟨_, htr, _⟩ := h
        subst htr
        simp [pnl_spec, cand_result]
      · exact ih h

theorem sim_with_entry_pnl (c : CandidateTrade) (rr : ℚ) (mode : String)
    (et : ℕ) (ep eh el : ℚ) (post : List (ℕ × ℚ × ℚ))
    (t : ℕ) (tr : TradeResult) (st : String)
    (h : sim_with_entry c rr mode et ep eh el post = (t, some tr, st)) :
    pnl_spec rr tr := by
  by_cases hr : |ep - c.stop_price| ≤ 0
  · simp [sim_with_entry, hr] at h
  · by_cases hm : mode = "open"
    · by_cases hd : c.direction = "long"
      · by_cases h1 : el ≤ c.stop_price
        · simp [sim_with_entry, hr, hm, hd, h1] at h
          obtain ⟨_, htr, _⟩ := h
          subst htr
          simp [pnl_spec, cand_result]
        · by_cases h2 : eh ≥ ep + rr * |ep - c.stop_price|
          · simp [sim_with_entry, hr, hm, hd, h1, h2] at h
            obtain ⟨_, htr, _⟩ := h
            subst htr
            simp [pnl_spec, cand_result]
          · simp [sim_with_entry, hr, hm, hd, h1, h2] at h
            exact scan_post_pnl c rr et ep _ post t tr st h
      · by_cases hs : c.direction = "short"
        · by_cases h1 : eh ≥ c.stop_price
          · simp [sim_with_entry, hr, hm, hd, hs, h1] at h
            obtain ⟨_, htr, _⟩ := h
            subst htr
            simp [pnl_spec, cand_result]
          · by_cases h2 : el ≤ ep - rr * |ep - c.stop_price|
            · simp [sim_with_entry, hr, hm, hd, hs, h1, h2] at h
              obtain ⟨_, htr, _⟩ := h
              subst htr
              simp [pnl_spec, cand_result]
            · simp [sim_with_entry, hr, hm, hd, hs, h1, h2] at h
              exact scan_post_pnl c rr et ep _ post t tr st h
        · by_cases h1 : eh ≥ c.stop_price
          · simp [sim_with_entry, hr, hm, hd, hs, h1] at h
            obtain ⟨_, htr, _⟩ := h
            subst htr
            simp [pnl_spec, cand_result]
          · by_cases h2 : el ≤ ep + rr * |ep - c.stop_price|
            · simp [sim_with_entry, hr, hm, hd, hs, h1, h2] at h
              obtain ⟨_, htr, _⟩ := h
              subst htr
              simp [pnl_spec, cand_result]
            · simp [sim_with_entry, hr, hm, hd, hs, h1, h2] at h
              exact scan_post_pnl c rr et ep _ post t tr st h
    · by_cases hd : c.direction = "long"
      · by_cases h1 : el ≤ c.stop_price
        · simp [sim_with_entry, hr, hm, hd, h1] at h
          obtain ⟨_, htr, _⟩ := h
          subst htr
          simp [pnl_spec, cand_result]
        · simp [sim_with_entry, hr, hm, hd, h1] at h
          exact scan_post_pnl c rr et ep _ post t tr st h
      · by_cases hs : c.direction = "short"
        · by_cases h1 : eh ≥ c.stop_price
          · simp [sim_with_entry, hr, hm, hd, hs, h1] at h
            obtain ⟨_, htr, _⟩ := h
            subst htr
            simp [pnl_spec, cand_result]
          · simp [sim_with_entry, hr, hm, hd, hs, h1] at h
            exact scan_post_pnl c rr et ep _ post t tr st h
        · by_cases h1 : eh ≥ c.stop_price
          · simp [sim_with_entry, hr, hm, hd, hs, h1] at h
            obtain ⟨_, htr, _⟩ := h
            subst htr
            simp [pnl_spec, cand_result]
          · simp [sim_with_entry, hr, hm, hd, hs, h1] at h
            exact scan_post_pnl c rr et ep _ post t tr st h


theorem combo_le_refl (x : ComboSummary) : combo_le x x := Or.inr ⟨rfl, le_refl _⟩

theorem combo_le_trans {x y z : ComboSummary} (h1 : combo_le x y) (h2 : combo_le y z) :
    combo_le x z := by
  rcases h1 with h1 | ⟨h1, h1t⟩ <;> rcases h2 with h2 | ⟨h2, h2t⟩
  · exact Or.inl (lt_trans h1 h2)
  · exact Or.inl (h2 ▸ h1)
  · exact Or.inl (h1 ▸ h2)
  · exact Or.inr ⟨h1.trans h2, h1t.trans h2t⟩

theorem better_avg_some (s b : ComboSummary) :
    better_avg s (some b) = true ↔
      (b.avg_r < s.avg_r ∨ (s.avg_r = b.avg_r ∧ b.total_r < s.total_r)) := by
  simp [better_avg]

theorem better_avg_true_le {s : ComboSummary} {b : ComboSummary}
    (h : better_avg s (some b) = true) : combo_le b s := by
  rw [better_avg_some] at h
  rcases h with h | ⟨h1, h2⟩
  · exact Or.inl h
  · exact Or.inr ⟨h1.symm, le_of_lt h2⟩

theorem better_avg_false_le {s : ComboSummary} {b : ComboSummary}
    (h : better_avg s (some b) = false) : combo_le s b := by
  rw [← Bool.not_eq_true, better_avg_some] at h
  push_neg at h
  obtain ⟨h1, h2⟩ := h
  rcases lt_or_eq_of_le h1 with h3 | h3
  · exact Or.inl h3
  · exact Or.inr ⟨h3, h2 h3⟩

theorem go_first_qual (mr : ℚ) (mt : ℕ) :
    ∀ (l1 : List ComboSummary) (s : ComboSummary) (l2 : List ComboSummary)
      (best : Option ComboSummary),
      (∀ x ∈ l1, x.trades = 0 ∨ ¬ (mt ≤ x.trades ∧ mr ≤ x.avg_r)) →
      s.trades ≠ 0 → mt ≤ s.trades → mr ≤ s.avg_r →
      evaluate_rrs_go mr mt best (l1 ++ s :: l2) = .ok s := by
  intro l1
  induction l1 with
  | nil =>
    intro s l2 best _ h0 h1 h2
    simp [evaluate_rrs_go, h0, h1, h2]
  | cons x l1 ih =>
    intro s l2 best hall h0 h1 h2
    have hx := hall x (List.mem_cons_self x l1)
    have hrest : ∀ y ∈ l1, y.trades = 0 ∨ ¬ (mt ≤ y.trades ∧ mr ≤ y.avg_r) :=
      fun y hy => hall y (List.mem_cons_of_mem x hy)
    by_cases hx0 : x.trades = 0
    · simp only [List.cons_append, evaluate_rrs_go, hx0, if_pos]
      exact ih s l2 best hrest h0 h1 h2
    · rcases hx with hx | hnq
      · exact absurd hx hx0
      · simp only [List.cons_append, evaluate_rrs_go, if_neg hx0, if_neg hnq]
        exact ih s l2 _ hrest h0 h1 h2

theorem go_error (mr : ℚ) (mt : ℕ) :
    ∀ (l : List ComboSummary) (best : Option ComboSummary) (e : String),
      evaluate_rrs_go mr mt best l = .error e →
      best = none ∧ ∀ x ∈ l, x.trades = 0 := by
  intro l
  induction l with
  | nil =>
    intro best e h
    cases best with
    | none => simp [evaluate_rrs_go] at h ⊢
    | some b => simp [evaluate_rrs_go] at h
  | cons s rest ih =>
    intro best e h
    by_cases h0 : s.trades = 0
    · simp only [evaluate_rrs_go, if_pos h0] at h
      obtain ⟨hb, hall⟩ := ih best e h
      refine ⟨hb, fun x hx => ?_⟩
      rcases List.mem_cons.mp hx with hx1 | hx1
      · subst hx1
        exact h0
      · exact hall x hx1
    · by_cases hq : mt ≤ s.trades ∧ mr ≤ s.avg_r
      · simp [evaluate_rrs_go, h0, hq] at h
      · simp only [evaluate_rrs_go, if_neg h0, if_neg hq] at h
        obtain ⟨hb, _⟩ := ih _ e h
        exfalso
        cases hbest : best with
        | none => simp [hbest, better_avg] at hb
        | some b0 => simp [hbest] at hb; split at hb <;> simp at hb

theorem go_fb (mr : ℚ) (mt : ℕ) :
    ∀ (l : List ComboSummary) (best : Option ComboSummary),
      (∀ x ∈ l, x.trades = 0 ∨ ¬ (mt ≤ x.trades ∧ mr ≤ x.avg_r)) →
      (best = none → ∃ x ∈ l, x.trades ≠ 0) →
      ∃ b, evaluate_rrs_go mr mt best l = .ok b ∧
        (best = none → b ∈ l ∧ b.trades ≠ 0) ∧
        (∀ b0, best = some b0 → (b = b0 ∨ (b ∈ l ∧ b.trades ≠ 0)) ∧ combo_le b0 b) ∧
        (∀ x ∈ l, x.trades ≠ 0 → combo_le x b) := by
  intro l
  induction l with
  | nil =>
    intro best hall hne
    cases best with
    | none =>
      obtain ⟨x, hx, _⟩ := hne rfl
      exact absurd hx (List.not_mem_nil x)
    | some b0 =>
      refine ⟨b0, by simp [evaluate_rrs_go], by simp, ?_, by simp⟩
      intro b1 hb1
      rw [Option.some_inj] at hb1
      subst hb1
      exact ⟨Or.inl rfl, combo_le_refl b0⟩
  | cons s rest ih =>
    intro best hall hne
    have hrest : ∀ x ∈ rest, x.trades = 0 ∨ ¬ (mt ≤ x.trades ∧ mr ≤ x.avg_r) :=
      fun x hx => hall x (List.mem_cons_of_mem s hx)
    by_cases h0 : s.trades = 0
    · have hne' : best = none → ∃ x ∈ rest, x.trades ≠ 0 := by
        intro hb
        obtain ⟨x, hx, hx0⟩ := hne hb
        rcases List.mem_cons.mp hx with hx1 | hx1
        · subst hx1
          exact absurd h0 hx0
        · exact ⟨x, hx1, hx0⟩
      obtain ⟨b, hgo, hc1, hc2, hc3⟩ := ih best hrest hne'
      refine ⟨b, ?_, ?_, ?_, ?_⟩
      · simpa [evaluate_rrs_go, h0] using hgo
      · intro hb
        obtain ⟨hmem, hbt⟩ := hc1 hb
        exact ⟨List.mem_cons_of_mem s hmem, hbt⟩
      · intro b0 hb0
        obtain ⟨hd, hle⟩ := hc2 b0 hb0
        refine ⟨?_, hle⟩
        rcases hd with hd | ⟨hmem, hbt⟩
        · exact Or.inl hd
        · exact Or.inr ⟨List.mem_cons_of_mem s hmem, hbt⟩
      · intro x hx hx0
        rcases List.mem_cons.mp hx with hx1 | hx1
        · subst hx1
          exact absurd h0 hx0
        · exact hc3 x hx1 hx0
    · have hnq : ¬ (mt ≤ s.trades ∧ mr ≤ s.avg_r) := by
        rcases hall s (List.mem_cons_self s rest) with h | h
        · exact absurd h h0
        · exact h
      have hbest1 : ∃ b1, (if better_avg s best then some s else best) = some b1 := by
        cases hb : better_avg s best with
        | true => exact ⟨s, by simp⟩
        | false =>
          cases best with
          | none => simp [better_avg] at hb
          | some b0 => exact ⟨b0, by simp⟩
      obtain ⟨b1, hb1⟩ := hbest1
      have hne1 : (if better_avg s best then some s else best) = none →
          ∃ x ∈ rest, x.trades ≠ 0 := by
        intro hcontra
        rw [hb1] at hcontra
        exact absurd hcontra (by simp)
      obtain ⟨b, hgo, hc1, hc2, hc3⟩ := ih _ hrest hne1
      have hgo' : evaluate_rrs_go mr mt best (s :: rest) = .ok b := by
        simpa [evaluate_rrs_go, h0, hnq] using hgo
      have hkey : (b = b1 ∨ (b ∈ rest ∧ b.trades ≠ 0)) ∧ combo_le b1 b := hc2 b1 hb1
      have hsb : combo_le s b := by
        cases hb : better_avg s best with
        | true =>
          have : b1 = s := by
            rw [hb] at hb1
            simp at hb1
            exact hb1.symm
          subst this
          exact hkey.2
        | false =>
          cases hbb : best with
          | none => rw [hbb] at hb; simp [better_avg] at hb
          | some b0 =>
            rw [hbb] at hb
            have hb1b0 : b1 = b0 := by
              rw [hbb, hb] at hb1
              simp at hb1
              exact hb1.symm
            subst hb1b0
            exact combo_le_trans (better_avg_false_le hb) hkey.2
      have hmem_b : b = s ∨ (b ∈ rest ∧ b.trades ≠ 0) → b ∈ s :: rest ∧ b.trades ≠ 0 := by
        intro hd
        rcases hd with hd | ⟨hmem, hbt⟩
        · subst hd
          exact ⟨List.mem_cons_self _ _, h0⟩
        · exact ⟨List.mem_cons_of_mem s hmem, hbt⟩
      refine ⟨b, hgo', ?_, ?_, ?_⟩
      · intro hbn
        have hb : better_avg s best = true := by
          rw [hbn]
          rfl
        have hb1s : b1 = s := by
          rw [hb] at hb1
          simp at hb1
          exact hb1.symm
        subst hb1s
        exact hmem_b hkey.1
      · intro b0 hb0
        cases hb : better_avg s best with
        | true =>
          have hb1s : b1 = s := by
            rw [hb] at hb1
            simp at hb1
            exact hb1.symm
          subst hb1s
          rw [hb0] at hb
          refine ⟨Or.inr (hmem_b hkey.1), combo_le_trans (better_avg_true_le hb) hkey.2⟩
        | false =>
          rw [hb0] at hb
          have hb1b0 : b1 = b0 := by
            rw [hb0, hb] at hb1
            simp at hb1
            exact hb1.symm
          subst hb1b0
          obtain ⟨hd, hle⟩ := hkey
          refine ⟨?_, hle⟩
          rcases hd with hd | ⟨hmem, hbt⟩
          · exact Or.inl hd
          · exact Or.inr ⟨List.mem_cons_of_mem s hmem, hbt⟩
      · intro x hx hx0
        rcases List.mem_cons.mp hx with hx1 | hx1
        · subst hx1
          exact hsb
        · exact hc3 x hx1 hx0

theorem run_collected_sound (p : FilterParams) (rr : ℚ) (mode : String) :
    ∀ (cands : List CandidateTrade) (idx : ℕ) (st : RunState) (j : ℕ) (tr : TradeResult),
      (j, tr) ∈ (run_combo_day p rr mode idx st cands).collected →
      (j, tr) ∈ st.collected ∨
        ∃ c, cands[j - idx]? = some c ∧ idx ≤ j ∧
          (simulate_trade_from_candidate c rr mode).2.1 = some tr := by
  intro cands
  induction cands with
  | nil =>
    intro idx st j tr h
    exact Or.inl h
  | cons c rest ih =>
    intro idx st j tr h
    have lift : ∀ (st' : RunState), st'.collected = st.collected →
        (j, tr) ∈ (run_combo_day p rr mode (idx + 1) st' rest).collected →
        (j, tr) ∈ st.collected ∨
          ∃ c', (c :: rest)[j - idx]? = some c' ∧ idx ≤ j ∧
            (simulate_trade_from_candidate c' rr mode).2.1 = some tr := by
      intro st' hcoll hmem
      rcases ih (idx + 1) st' j tr hmem with hl | ⟨c', hc1, hc2, hc3⟩
      · exact Or.inl (hcoll ▸ hl)
      · refine Or.inr ⟨c', ?_, by omega, hc3⟩
        have : j - idx = (j - (idx + 1)) + 1 := by omega
        rw [this]
        simpa using hc1
    rw [run_combo_day] at h
    rcases het : (if mode = "open" then c.next_bar_start else some c.entry_bar_end) with _ | centry_time
    · rw [het] at h
      exact lift st rfl h
    · rcases hep : (if mode = "open" then c.next_bar_open else some c.entry_bar_close) with _ | centry_price
      · rw [het, hep] at h
        exact lift st rfl h
      · rw [het, hep] at h
        simp only at h
        by_cases hov : (p.prevent_overlap &&
            (match st.active_until with
              | some au => decide (centry_time < au)
              | none => false)) = true
        · rw [if_pos hov] at h
          exact lift st rfl h
        · rw [if_neg hov] at h
          set st1 := if p.prevent_overlap = true then { st with active_until := none } else st with hst1
          have hst1c : st1.collected = st.collected := by
            rw [hst1]
            split <;> rfl
          by_cases hmax : (match p.max_trades_per_day with
              | some m => decide (m ≤ st1.trades_taken)
              | none => false) = true
          · rw [if_pos hmax] at h
            exact Or.inl (hst1c ▸ h)
          · rw [if_neg hmax] at h
            by_cases hdir : (match p.max_trades_per_direction with
                | some m => decide (m ≤ run_dir_count st1 c.direction)
                | none => false) = true
            · rw [if_pos hdir] at h
              exact lift st1 hst1c h
            · rw [if_neg hdir] at h
              by_cases hfil : ¬ (candidate_filter_check c centry_time (some c.session_close_time)
                    p.min_breakout_pct p.max_breakout_pct
                    p.min_breakout_wick_pct none
                    p.min_wait_minutes p.max_wait_minutes
                    p.min_retest_size_pct p.max_retest_size_pct
                    p.min_retest_body_inside_pct
                    p.max_entry_minutes_from_box_close = true
                  ∧ ticks_to_stop_ok p centry_price c.stop_price = true)
              · rw [if_pos hfil] at h
                exact lift st1 hst1c h
              · rw [if_neg hfil] at h
                set st2 := if p.prevent_overlap = true
                  then { st1 with active_until := some (simulate_trade_from_candidate c rr mode).1 }
                  else st1 with hst2
                have hst2c : st2.collected = st.collected := by
                  rw [hst2]
                  split <;> simp [hst1c]
                rcases hout : (simulate_trade_from_candidate c rr mode).2.1 with _ | tr0
                · simp only [hout] at h
                  exact lift st2 hst2c h
                · simp only [hout] at h
                  rcases ih (idx + 1) _ j tr h with hl | ⟨c', hc1, hc2, hc3⟩
                  · have hl2 : (j, tr) ∈ st2.collected ++ [(idx, tr0)] := hl
                    rcases List.mem_append.mp hl2 with hl3 | hl3
                    · exact Or.inl (hst2c ▸ hl3)
                    · have hj : j = idx ∧ tr = tr0 := by simpa using hl3
                      obtain ⟨hj1, hj2⟩ := hj
                      subst hj1
                      subst hj2
                      exact Or.inr ⟨c, by simp, le_refl _, hout⟩
                  · refine Or.inr ⟨c', ?_, by omega, hc3⟩
                    have heq : j - idx = (j - (idx + 1)) + 1 := by omega
                    rw [heq]
                    simpa using hc1

theorem last_d_concat {α : Type} (l : List α) (a d : α) :
    last_d (l ++ [a]) d = a := by
  induction l generalizing d with
  | nil => rfl
  | cons x xs ih => simpa [last_d] using ih x

theorem last_d_mem_cons {α : Type} (l : List α) (d : α) :
    last_d l d ∈ d :: l := by
  induction l generalizing d with
  | nil => simp [last_d]
  | cons x xs ih =>
    rcases List.mem_cons.mp (ih x) with h | h
    · simp [last_d, h]
    · simp only [last_d]
      exact List.mem_cons_of_mem d (List.mem_cons_of_mem x h)

theorem fmb_flush_none (s : FiveMinuteBuilder) (h : s.open_price = none) :
    fmb_flush s = s := by
  cases hlt : s.last_time <;> simp [fmb_flush, h, hlt]

theorem fmb_advance_stop (t : ℕ) (s : FiveMinuteBuilder) (e : ℕ)
    (hce : s.current_end = some e) (hgt : t < e) : fmb_advance t s = s := by
  rw [fmb_advance]
  split
  · rfl
  next e' heq =>
    rw [hce] at heq
    injection heq with he
    subst he
    rw [if_neg (Nat.not_le.mpr hgt)]

theorem fmb_advance_empty :
    ∀ (k t e : ℕ) (st : FiveMinuteBuilder),
      st.current_end = some e → st.open_price = none →
      e % 5 = 0 → e ≤ t → t - e ≤ k →
      fmb_advance t st = { st with current_start := some (5 * (t / 5)),
                                   current_end := some (5 * (t / 5) + 5) } := by
  intro k
  induction k with
  | zero =>
    intro t e st hce hop hmod hle hk
    have he : e = 5 * (t / 5) := by omega
    rw [fmb_advance]
    split
    · next heq => rw [hce] at heq; exact absurd heq (by simp)
    next e' heq =>
      rw [hce] at heq
      injection heq with he'
      subst he'
      rw [if_pos hle]
      have hstop : t < e + 5 := by omega
      rw [fmb_advance_stop t _ (e + 5) (by simp) hstop]
      rw [fmb_flush_none st hop]
      subst he
      rfl
  | succ k ih =>
    intro t e st hce hop hmod hle hk
    rw [fmb_advance]
    split
    · next heq => rw [hce] at heq; exact absurd heq (by simp)
    next e' heq =>
      rw [hce] at heq
      injection heq with he'
      subst he'
      rw [if_pos hle]
      rw [fmb_flush_none st hop]
      by_cases hnext : e + 5 ≤ t
      · rw [ih t (e + 5) _ (by simp) (by simpa using hop) (by omega) hnext (by omega)]
      · have he : e = 5 * (t / 5) := by omega
        rw [fmb_advance_stop t _ (e + 5) (by simp) (by omega)]
        subst he
        rfl

theorem fmb_add_same_bucket (done : List Bar) (b : ℕ) (m : MinuteBar)
    (r : List MinuteBar) (x : MinuteBar) (hb : bucket x = b) :
    fmb_add x (mid_state done b m r) = mid_state done b m (r ++ [x]) := by
  have hlt : x.time < 5 * b + 5 := by
    simp only [bucket] at hb
    omega
  unfold fmb_add
  rw [show (mid_state done b m r).current_start = some (5 * b) from rfl]
  simp only
  rw [fmb_advance_stop x.time _ (5 * b + 5) rfl hlt]
  rw [show (mid_state done b m r).open_price = some m.opn from rfl]
  simp only [mid_state, List.foldl_append, List.foldl_cons, List.foldl_nil,
    last_d_concat, Option.map_some']

theorem fmb_flush_mid (done : List Bar) (b : ℕ) (m : MinuteBar)
    (r : List MinuteBar) (hm : bucket m = b) :
    fmb_flush (mid_state done b m r) =
      { bars := done ++ [agg_bar (m :: r)], current_start := some (5 * b),
        current_end := some (5 * b + 5), open_price := none, high := none,
        low := none, close := none, last_time := some ((last_d r m).time) } := by
  have hfloor : floor5 m.time = 5 * b := by
    simp only [bucket] at hm
    simp only [floor5]
    omega
  have hagg : agg_bar (m :: r) =
      { start := floor5 m.time, endT := floor5 m.time + 5,
        opn := m.opn, high := r.foldl (fun a x => max a x.high) m.high,
        low := r.foldl (fun a x => min a x.low) m.low,
        close := (last_d r m).close } := rfl
  simp only [fmb_flush, mid_state, Option.getD_some]
  rw [hagg, hfloor]

theorem fmb_add_new_bucket (done : List Bar) (b : ℕ) (m : MinuteBar)
    (r : List MinuteBar) (x : MinuteBar)
    (hm : bucket m = b) (hr : ∀ y ∈ r, bucket y = b)
    (hord : (last_d r m).time ≤ x.time) (hb : bucket x ≠ b) :
    fmb_add x (mid_state done b m r) =
      mid_state (done ++ [agg_bar (m :: r)]) (bucket x) x [] := by
  have hlast : bucket (last_d r m) = b := by
    rcases List.mem_cons.mp (last_d_mem_cons r m) with h | h
    · rw [h]
      exact hm
    · exact hr _ h
  have hge : 5 * b + 5 ≤ x.time := by
    simp only [bucket] at hlast hb hm ⊢
    omega
  have hflush := fmb_flush_mid done b m r hm
  have hadv : fmb_advance x.time (mid_state done b m r) =
      { bars := done ++ [agg_bar (m :: r)],
        current_start := some (5 * (x.time / 5)),
        current_end := some (5 * (x.time / 5) + 5), open_price := none,
        high := none, low := none, close := none,
        last_time := some ((last_d r m).time) } := by
    rw [fmb_advance]
    split
    · next heq => exact absurd heq (by simp [mid_state])
    next e' heq =>
      have he' : e' = 5 * b + 5 := by
        simp [mid_state] at heq
        omega
      subst he'
      rw [if_pos hge, hflush]
      by_cases h2 : 5 * b + 5 + 5 ≤ x.time
      · rw [fmb_advance_empty x.time x.time (5 * b + 5 + 5) _ rfl rfl (by omega) h2
          (by omega)]
      · rw [fmb_advance_stop x.time _ (5 * b + 5 + 5) rfl (by omega)]
        have hdiv : 5 * (x.time / 5) = 5 * b + 5 := by omega
        rw [hdiv]
  unfold fmb_add
  simp only [mid_state] at hadv ⊢
  rw [hadv]
  simp only [last_d, List.foldl_nil, bucket]

theorem takeWhile_append_all {α : Type} (p : α → Bool) (l1 l2 : List α)
    (h : ∀ x ∈ l1, p x = true) :
    (l1 ++ l2).takeWhile p = l1 ++ l2.takeWhile p := by
  induction l1 with
  | nil => simp
  | cons x xs ih =>
    simp [h x (List.mem_cons_self x xs),
      ih fun y hy => h y (List.mem_cons_of_mem x hy)]

theorem dropWhile_append_all {α : Type} (p : α → Bool) (l1 l2 : List α)
    (h : ∀ x ∈ l1, p x = true) :
    (l1 ++ l2).dropWhile p = l2.dropWhile p := by
  induction l1 with
  | nil => simp
  | cons x xs ih =>
    simp [h x (List.mem_cons_self x xs),
      ih fun y hy => h y (List.mem_cons_of_mem x hy)]

theorem group_runs_cons (m : MinuteBar) (ms : List MinuteBar) :
    group_runs (m :: ms) =
      (m :: ms.takeWhile fun x => bucket x == bucket m) ::
        group_runs (ms.dropWhile fun x => bucket x == bucket m) := by
  rw [group_runs]

theorem group_runs_run (b : ℕ) (m : MinuteBar) (r ms : List MinuteBar)
    (hm : bucket m = b) (hr : ∀ y ∈ r, bucket y = b) :
    group_runs ((m :: r) ++ ms) =
      (m :: (r ++ ms.takeWhile fun x => bucket x == b)) ::
        group_runs (ms.dropWhile fun x => bucket x == b) := by
  have hall : ∀ y ∈ r, (fun x => bucket x == bucket m) y = true := by
    intro y hy
    simp [hr y hy, hm]
  rw [List.cons_append, group_runs_cons, takeWhile_append_all _ _ _ hall,
    dropWhile_append_all _ _ _ hall, hm]

theorem group_runs_ne_nil :
    ∀ (ms : List MinuteBar) (g : List MinuteBar), g ∈ group_runs ms → g ≠ []
  | [], g, hg => by simp [group_runs] at hg
  | m :: tl, g, hg => by
    rw [group_runs_cons] at hg
    rcases List.mem_cons.mp hg with h | h
    · subst h
      simp
    · exact group_runs_ne_nil (tl.dropWhile fun x => bucket x == bucket m) g h
termination_by ms => ms.length
decreasing_by
  simp only [List.length_cons]
  have := length_dropWhile_le' (fun x => bucket x == bucket m) tl
  omega

theorem getLast?_eq_last_d {α : Type} :
    ∀ (r : List α) (m : α), (m :: r).getLast? = some (last_d r m)
  | [], m => rfl
  | x :: xs, m => by
    rw [show last_d (x :: xs) m = last_d xs x from rfl]
    rw [← getLast?_eq_last_d xs x]
    simp [List.getLast?_cons_cons]

theorem run_from_mid :
    ∀ (ms : List MinuteBar) (done : List Bar) (b : ℕ) (m : MinuteBar) (r : List MinuteBar),
      bucket m = b → (∀ y ∈ r, bucket y = b) →
      List.Chain' (fun a c => a.time ≤ c.time) (m :: (r ++ ms)) →
      fmb_finalize (ms.foldl (fun s x => fmb_add x s) (mid_state done b m r)) =
        done ++ (group_runs (m :: (r ++ ms))).map agg_bar := by
  intro ms
  induction ms with
  | nil =>
    intro done b m r hm hr _
    simp only [List.foldl_nil, fmb_finalize, fmb_flush_mid done b m r hm]
    rw [show (m :: (r ++ [])) = (m :: r) ++ ([] : List MinuteBar) by simp]
    rw [group_runs_run b m r [] hm hr]
    simp [group_runs]
  | cons x ms' ih =>
    intro done b m r hm hr hchain
    simp only [List.foldl_cons]
    have hchain2 : List.Chain' (fun a c => a.time ≤ c.time) ((m :: r) ++ (x :: ms')) := by
      rw [List.cons_append]
      exact hchain
    obtain ⟨hc1, hc2, hc3⟩ := List.chain'_append.mp hchain2
    by_cases hb : bucket x = b
    · rw [fmb_add_same_bucket done b m r x hb]
      have hr' : ∀ y ∈ r ++ [x], bucket y = b := by
        intro y hy
        rcases List.mem_append.mp hy with h | h
        · exact hr y h
        · rw [List.mem_singleton.mp h]
          exact hb
      have hchain' : List.Chain' (fun a c => a.time ≤ c.time) (m :: ((r ++ [x]) ++ ms')) := by
        rw [List.append_assoc]
        simpa using hchain
      rw [ih done b m (r ++ [x]) hm hr' hchain']
      rw [show (r ++ [x]) ++ ms' = r ++ (x :: ms') by simp]
    · have hord : (last_d r m).time ≤ x.time := by
        refine hc3 (last_d r m) ?_ x rfl
        rw [getLast?_eq_last_d]
        rfl
      rw [fmb_add_new_bucket done b m r x hm hr hord hb]
      have hchain'' : List.Chain' (fun a c => a.time ≤ c.time) (x :: (([] : List MinuteBar) ++ ms')) := by
        simpa using hc2
      rw [ih (done ++ [agg_bar (m :: r)]) (bucket x) x [] rfl (by simp) hchain'']
      rw [show (m :: (r ++ x :: ms')) = (m :: r) ++ (x :: ms') by simp]
      rw [group_runs_run b m r (x :: ms') hm hr]
      have htw : (x :: ms').takeWhile (fun y => bucket y == b) = [] := by
        simp [List.takeWhile_cons, hb]
      have hdw : (x :: ms').dropWhile (fun y => bucket y == b) = x :: ms' := by
        simp [List.dropWhile_cons, hb]
      rw [htw, hdw]
      simp [List.append_assoc]

theorem fmb_add_init (m : MinuteBar) :
    fmb_add m fmb_init = mid_state [] (bucket m) m [] := by
  have h1 : m.time < floor5 m.time + 5 := by
    simp only [floor5]
    omega
  unfold fmb_add fmb_init
  simp only
  rw [fmb_advance_stop m.time _ (floor5 m.time + 5) rfl h1]
  simp only [mid_state, bucket, floor5, last_d, List.foldl_nil]


/-- Claim C1: for both long and short trades, a bar on which entry is
confirmed that touches both the stop and the target (long: low ≤ stop and
high ≥ target; short mirrored) resolves to a "stop" exit, never a "target"
exit — in `_check_trade_exit` (both entry modes), in the entry-bar handling
of `_simulate_trade_from_candidate`, and in the first-bar handling of the
ym variant's `simulate_trade`. -/
theorem c1_entry_bar_double_touch_stop :
    (∀ (bar : Bar) (t : ActiveTrade),
      ((t.direction = "long" ∧ bar.low ≤ t.stop_price ∧ t.target_price ≤ bar.high) ∨
       (t.direction = "short" ∧ t.stop_price ≤ bar.high ∧ bar.low ≤ t.target_price)) →
      check_trade_exit bar t true = .exit t.stop_price (-1) "stop") ∧
    (∀ (c : CandidateTrade) (rr : ℚ) (mode : String) (et : ℕ)
      (ep eh el : ℚ) (post : List (ℕ × ℚ × ℚ)),
      0 < |ep - c.stop_price| →
      ((c.direction = "long" ∧ el ≤ c.stop_price ∧ ep + rr * |ep - c.stop_price| ≤ eh) ∨
       (c.direction = "short" ∧ c.stop_price ≤ eh ∧ el ≤ ep - rr * |ep - c.stop_price|)) →
      ∃ tr, sim_with_entry c rr mode et ep eh el post = (et, some tr, "stop") ∧
        tr.exit_reason = "stop" ∧ tr.exit_price = c.stop_price ∧ tr.pnl_r = -1) ∧
    (∀ (side : String) (ets : ℕ) (stop tp risk : ℚ) (b : HLBar) (rest : List HLBar),
      ((side = "long" ∧ b.low ≤ stop ∧ tp ≤ b.high) ∨
       (side = "short" ∧ stop ≤ b.high ∧ b.low ≤ tp)) →
      ym_go side ets stop tp risk true (b :: rest) = some (ets, b.ts, stop, "SL", risk)) := by
  refine ⟨?_, ?_, ?_⟩
  · intro bar t h
    rcases h with ⟨hd, h1, h2⟩ | ⟨hd, h1, h2⟩ <;> simp [check_trade_exit, hd, h1, h2]
  · intro c rr mode et ep eh el post hr h
    rcases h with ⟨hd, h1, h2⟩ | ⟨hd, h1, h2⟩
    · refine ⟨cand_result c rr et ep c.stop_price (ep + rr * |ep - c.stop_price|)
        et c.stop_price (-1) "stop", ?_, by simp [cand_result], by simp [cand_result],
        by simp [cand_result]⟩
      simp [sim_with_entry, hd, h1, h2, not_le.mpr hr]
    · refine ⟨cand_result c rr et ep c.stop_price (ep - rr * |ep - c.stop_price|)
        et c.stop_price (-1) "stop", ?_, by simp [cand_result], by simp [cand_result],
        by simp [cand_result]⟩
      simp [sim_with_entry, hd, h1, h2, not_le.mpr hr]
  · intro side ets stop tp risk b rest h
    rcases h with ⟨hd, h1, h2⟩ | ⟨hd, h1, h2⟩ <;> simp [ym_go, hd, h1, h2]

/-- Witness for C1 at concrete inputs: a long trade with stop 98 and
target 102 on a bar with low 97 and high 103. -/
theorem c1_entry_bar_double_touch_stop_witness :
    check_trade_exit ⟨0, 5, 100, 103, 97, 100⟩ ex_trade true =
      .exit ex_trade.stop_price (-1) "stop" ∧
    (∃ tr, sim_with_entry ex_cand 1 "close" 0 100 103 97 [] = (0, some tr, "stop") ∧
      tr.exit_reason = "stop" ∧ tr.exit_price = ex_cand.stop_price ∧ tr.pnl_r = -1) ∧
    ym_go "long" 0 98 102 2 true [⟨1, 103, 97, 100⟩] = some (0, 1, 98, "SL", 2) := by
  refine ⟨c1_entry_bar_double_touch_stop.1 ⟨0, 5, 100, 103, 97, 100⟩ ex_trade
      (Or.inl ⟨rfl, by norm_num [ex_trade], by norm_num [ex_trade]⟩),
    c1_entry_bar_double_touch_stop.2.1 ex_cand 1 "close" 0 100 103 97 []
      (by norm_num [ex_cand]) (Or.inl ⟨rfl, by norm_num [ex_cand], by norm_num [ex_cand]⟩),
    c1_entry_bar_double_touch_stop.2.2 "long" 0 98 102 2 ⟨1, 103, 97, 100⟩ []
      (Or.inl ⟨rfl, by norm_num, by norm_num⟩)⟩

/-- Claim C2: for every trade resolved by `_simulate_trade_from_candidate`,
a "target" exit has `pnl_r` equal to the requested `rr` exactly, a "stop"
exit has `pnl_r = -1` exactly, and a session-close exit has
`pnl_r = (exit_price - entry_price) / risk` with the sign flipped for a
short trade, where `risk = |entry_price - stop_price|`. -/
theorem c2_r_accounting :
    ∀ (c : CandidateTrade) (rr : ℚ) (mode : String) (t : ℕ) (tr : TradeResult)
      (st : String),
      simulate_trade_from_candidate c rr mode = (t, some tr, st) →
      pnl_spec rr tr := by
  intro c rr mode t tr st h
  by_cases hm : mode = "open"
  · rcases hns : c.next_bar_start with _ | ns <;>
      rcases hno : c.next_bar_open with _ | no <;>
      rcases hnh : c.next_bar_high with _ | nh <;>
      rcases hnl : c.next_bar_low with _ | nl <;>
      simp only [simulate_trade_from_candidate, hm, if_true, hns, hno, hnh, hnl,
        reduceIte] at h <;>
      first
        | (exact sim_with_entry_pnl c rr "open" _ _ _ _ _ t tr st h)
        | (simp at h)
  · simp only [simulate_trade_from_candidate, if_neg hm] at h
    exact sim_with_entry_pnl c rr mode _ _ _ _ _ t tr st h

/-- Witness for C2: the concrete candidate `ex_cand` with a clean target
hit resolves to `c2w_trade`, whose `pnl_r` equals the requested `rr = 1`. -/
theorem c2_r_accounting_witness : c2w_trade.pnl_r = 1 := by
  have h := c2_r_accounting { ex_cand with post_lows := [99, 100] } 1 "close"
    1 c2w_trade "target" (by
      simp [simulate_trade_from_candidate, sim_with_entry, scan_post, zip3,
        ex_cand, cand_result, c2w_trade]
      norm_num)
  exact h.1 rfl

/-- Counterexample to C3: on the non-entry bar at time 1 whose range
touches both the stop (98, low 97) and the target (102, high 103), the
candidate-based simulator does not continue scanning — it resolves the
candidate right there with status "cancel" and no trade, even though the
following bar (time 2, high 103, low 100) would have resolved it as a
"target" had scanning continued. -/
theorem c3_double_touch_counterexample :
    simulate_trade_from_candidate ex_cand 1 "close" = (1, none, "cancel") ∧
    (scan_post ex_cand 1 0 100 98 102 2 [(2, 103, 100)]).2.2 = "target" := by
  constructor
  · simp [simulate_trade_from_candidate, sim_with_entry, scan_post, zip3, ex_cand,
      cand_result]
    norm_num
  · simp [scan_post, ex_cand, cand_result]
    norm_num

/-- Amended C3: on a non-entry bar touching both the stop and the target,
the immediate simulator (`_check_trade_exit`) resolves the trade as
"cancel", and the candidate-based simulator likewise resolves the candidate
on that very bar — it returns a "cancel" status with no `TradeResult`
(the candidate yields no trade), rather than continuing to scan forward
bars. -/
theorem c3_double_touch_cancels :
    (∀ (bar : Bar) (t : ActiveTrade),
      ((t.direction = "long" ∧ bar.low ≤ t.stop_price ∧ t.target_price ≤ bar.high) ∨
       (t.direction = "short" ∧ t.stop_price ≤ bar.high ∧ bar.low ≤ t.target_price)) →
      check_trade_exit bar t false = .cancel) ∧
    (∀ (c : CandidateTrade) (rr : ℚ) (et : ℕ) (ep sp tp risk : ℚ)
       (time : ℕ) (high low : ℚ) (rest : List (ℕ × ℚ × ℚ)),
      ((c.direction = "long" ∧ low ≤ sp ∧ tp ≤ high) ∨
       (c.direction = "short" ∧ sp ≤ high ∧ low ≤ tp)) →
      scan_post c rr et ep sp tp risk ((time, high, low) :: rest) =
        (time, none, "cancel")) := by
  constructor
  · intro bar t h
    rcases h with ⟨hd, h1, h2⟩ | ⟨hd, h1, h2⟩ <;> simp [check_trade_exit, hd, h1, h2]
  · intro c rr et ep sp tp risk time high low rest h
    rcases h with ⟨hd, h1, h2⟩ | ⟨hd, h1, h2⟩ <;> simp [scan_post, hd, h1, h2]

/-- Witness for the amended C3 at concrete inputs. -/
theorem c3_double_touch_cancels_witness :
    check_trade_exit ⟨0, 5, 100, 103, 97, 100⟩ ex_trade false = .cancel ∧
    scan_post ex_cand 1 0 100 98 102 2 [(1, 103, 97)] = (1, none, "cancel") := by
  refine ⟨c3_double_touch_cancels.1 ⟨0, 5, 100, 103, 97, 100⟩ ex_trade
      (Or.inl ⟨rfl, by norm_num [ex_trade], by norm_num [ex_trade]⟩),
    c3_double_touch_cancels.2 ex_cand 1 0 100 98 102 2 1 103 97 []
      (Or.inl ⟨rfl, by norm_num, by norm_num⟩)⟩

/-- Counterexample to C4: in entry mode "open", a target hit alone on the
bar where entry is confirmed does close the trade, and as a "target" exit
(bar low 99 misses the stop 98, bar high 103 reaches the target 102). -/
theorem c4_entry_bar_target_counterexample :
    ¬ ((⟨0, 5, 100, 103, 99, 100⟩ : Bar).low ≤ ex_trade.stop_price) ∧
    ex_trade.target_price ≤ (⟨0, 5, 100, 103, 99, 100⟩ : Bar).high ∧
    check_trade_exit ⟨0, 5, 100, 103, 99, 100⟩ { ex_trade with entry_mode := "open" }
      true = .exit ex_trade.target_price ex_trade.rr "target" := by
  refine ⟨by norm_num [ex_trade], by norm_num [ex_trade], ?_⟩
  simp [check_trade_exit, ex_trade]
  norm_num

/-- Amended C4: the entry-bar asymmetry holds in entry mode "close" (and in
the fixed-risk variants): there a target hit alone never closes the trade —
any exit on the entry bar is a stop exit at the stop price, and without a
stop touch the trade holds.  In entry mode "open" both stop and target can
resolve on the entry bar, the stop taking priority.  The ym variant's first
bar ignores a lone target touch and continues, while any stop touch (alone
or combined) exits as "SL". -/
theorem c4_entry_bar_policy :
    (∀ (bar : Bar) (t : ActiveTrade) (p pr : ℚ) (s : String),
      t.entry_mode = "close" →
      check_trade_exit bar t true = .exit p pr s →
      s = "stop" ∧ p = t.stop_price ∧ pr = -1) ∧
    (∀ (bar : Bar) (t : ActiveTrade),
      t.entry_mode = "close" → t.direction = "long" → ¬ bar.low ≤ t.stop_price →
      check_trade_exit bar t true = .hold) ∧
    (∀ (bar : Bar) (t : ActiveTrade),
      t.entry_mode = "close" → t.direction = "short" → ¬ t.stop_price ≤ bar.high →
      check_trade_exit bar t true = .hold) ∧
    (∀ (side : String) (ets : ℕ) (stop tp risk : ℚ) (b : HLBar) (rest : List HLBar),
      ((side = "long" ∧ ¬ b.low ≤ stop) ∨ (side = "short" ∧ ¬ stop ≤ b.high)) →
      ym_go side ets stop tp risk true (b :: rest) =
        ym_go side ets stop tp risk false rest) ∧
    (∀ (side : String) (ets : ℕ) (stop tp risk : ℚ) (b : HLBar) (rest : List HLBar),
      ((side = "long" ∧ b.low ≤ stop) ∨ (side = "short" ∧ stop ≤ b.high)) →
      ym_go side ets stop tp risk true (b :: rest) =
        some (ets, b.ts, stop, "SL", risk)) := by
  refine ⟨?_, ?_, ?_, ?_, ?_⟩
  · intro bar t p pr s hm h
    by_cases hd : t.direction = "long"
    · by_cases h1 : bar.low ≤ t.stop_price
      · simp [check_trade_exit, hm, hd, h1] at h
        exact ⟨h.2.2.symm, h.1.symm, h.2.1.symm⟩
      · by_cases h2 : t.target_price ≤ bar.high <;>
          simp [check_trade_exit, hm, hd, h1, h2] at h
    · by_cases h1 : t.stop_price ≤ bar.high
      · simp [check_trade_exit, hm, hd, h1] at h
        exact ⟨h.2.2.symm, h.1.symm, h.2.1.symm⟩
      · by_cases h2 : bar.low ≤ t.target_price <;>
          simp [check_trade_exit, hm, hd, h1, h2] at h
  · intro bar t hm hd h1
    simp [check_trade_exit, hm, hd, h1]
  · intro bar t hm hd h1
    simp [check_trade_exit, hm, hd, h1]
  · intro side ets stop tp risk b rest h
    rcases h with ⟨hd, h1⟩ | ⟨hd, h1⟩ <;> simp [ym_go, hd, h1]
  · intro side ets stop tp risk b rest h
    rcases h with ⟨hd, h1⟩ | ⟨hd, h1⟩ <;> simp [ym_go, hd, h1]

/-- Witness for the amended C4 at concrete inputs (entry mode "close",
long, stop 98: a bar with low 99 holds, a bar with low 97 exits at the
stop; the ym first bar with low 99 continues, with low 97 exits "SL"). -/
theorem c4_entry_bar_policy_witness :
    ("stop" : String) = "stop" ∧ (98 : ℚ) = ex_trade.stop_price ∧ (-1 : ℚ) = -1 ∧
    check_trade_exit ⟨0, 5, 100, 101, 99, 100⟩ ex_trade true = .hold ∧
    check_trade_exit ⟨0, 5, 100, 101, 99, 100⟩
      { ex_trade with direction := "short", stop_price := 102 } true = .hold ∧
    ym_go "long" 0 98 102 2 true [⟨1, 101, 99, 100⟩] =
      ym_go "long" 0 98 102 2 false [] ∧
    ym_go "long" 0 98 102 2 true [⟨1, 101, 97, 100⟩] = some (0, 1, 98, "SL", 2) := by
  refine ⟨?_, ?_, ?_, ?_, ?_, ?_, ?_⟩
  · exact (c4_entry_bar_policy.1 ⟨0, 5, 100, 103, 97, 100⟩ ex_trade 98 (-1) "stop" rfl
      (by simp [check_trade_exit, ex_trade]; norm_num)).1
  · exact ((c4_entry_bar_policy.1 ⟨0, 5, 100, 103, 97, 100⟩ ex_trade 98 (-1) "stop" rfl
      (by simp [check_trade_exit, ex_trade]; norm_num)).2.1)
  · exact ((c4_entry_bar_policy.1 ⟨0, 5, 100, 103, 97, 100⟩ ex_trade 98 (-1) "stop" rfl
      (by simp [check_trade_exit, ex_trade]; norm_num)).2.2)
  · exact c4_entry_bar_policy.2.1 ⟨0, 5, 100, 101, 99, 100⟩ ex_trade rfl rfl
      (by norm_num [ex_trade])
  · exact c4_entry_bar_policy.2.2.1 ⟨0, 5, 100, 101, 99, 100⟩
      { ex_trade with direction := "short", stop_price := 102 } rfl rfl
      (by norm_num [ex_trade])
  · exact c4_entry_bar_policy.2.2.2.1 "long" 0 98 102 2 ⟨1, 101, 99, 100⟩ []
      (Or.inl ⟨rfl, by norm_num⟩)
  · exact c4_entry_bar_policy.2.2.2.2 "long" 0 98 102 2 ⟨1, 101, 97, 100⟩ []
      (Or.inl ⟨rfl, by norm_num⟩)

/-- Well-formedness of the opening-range fold: from an accumulator whose
low does not exceed its high, folding well-formed minute bars keeps
`range_low ≤ range_high`. -/
theorem range_fold_wf :
    ∀ (l : List MinuteBar) (acc : Option (ℚ × ℚ)) (rh rl : ℚ),
      (∀ m ∈ l, m.low ≤ m.high) →
      (∀ a b : ℚ, acc = some (a, b) → b ≤ a) →
      l.foldl range_acc acc = some (rh, rl) → rl ≤ rh := by
  intro l
  induction l with
  | nil =>
    intro acc rh rl _ hacc h
    exact hacc _ _ h
  | cons m ms ih =>
    intro acc rh rl hwf hacc h
    simp only [List.foldl_cons] at h
    refine ih _ rh rl (fun x hx => hwf x (List.mem_cons_of_mem m hx)) ?_ h
    intro a b hab
    have hm := hwf m (List.mem_cons_self m ms)
    cases acc with
    | none =>
      simp [range_acc] at hab
      obtain ⟨ha, hb⟩ := hab
      subst ha
      subst hb
      exact hm
    | some p =>
      obtain ⟨a0, b0⟩ := p
      have h0 := hacc a0 b0 rfl
      simp [range_acc] at hab
      obtain ⟨ha, hb⟩ := hab
      subst ha
      subst hb
      exact le_trans (min_le_left _ _) (le_trans h0 (le_max_left _ _))

/-- Counterexample to C5: with a degenerate box (`range_size = 0`) and a
configured `min_breakout_pct` of 1/2, the breakout-excursion filter of
`generate_trade_log` evaluates to `true` — the breakout is accepted
automatically, not rejected — on a bar closing above the box. -/
theorem c5_zero_range_counterexample :
    breakout_pct_ok_above ⟨0, 5, 100, 103, 99, 101⟩ 100 0 (some (1/2)) = true ∧
    (100 : ℚ) < (⟨0, 5, 100, 103, 99, 101⟩ : Bar).close := by
  constructor
  · rfl
  · norm_num

/-- Amended C5: `range_high ≥ range_low` holds for every day whose opening
range accumulates from well-formed minute bars, and no division by zero is
ever performed when `range_size = 0` — but the two paths disagree with the
claim's "automatically failing": the breakout filter of
`generate_trade_log` short-circuits to pass (accepting the breakout) in
both directions, while the candidate path computes `breakout_close_pct = 0`
so that only a strictly positive `min_breakout_pct` threshold rejects the
candidate there. -/
theorem c5_zero_range_behavior :
    (∀ (ms : List MinuteBar) (deadline : ℕ) (rh rl : ℚ),
      opening_range ms deadline = some (rh, rl) →
      (∀ m ∈ ms, m.low ≤ m.high) → rl ≤ rh) ∧
    (∀ (bar : Bar) (rh : ℚ) (minp : Option ℚ),
      breakout_pct_ok_above bar rh 0 minp = true) ∧
    (∀ (bar : Bar) (rl : ℚ) (minp : Option ℚ),
      breakout_pct_ok_below bar rl 0 minp = true) ∧
    (∀ (bar : Bar) (dir : String) (rh rl rs : ℚ),
      rs ≤ 0 → compute_breakout_close_pct bar dir rh rl rs = 0) ∧
    (∀ p : ℚ, 0 < p → min_breakout_pct_rejects (some p) 0 = true) := by
  refine ⟨?_, ?_, ?_, ?_, ?_⟩
  · intro ms deadline rh rl h hwf
    refine range_fold_wf _ none rh rl ?_ (by simp) h
    intro m hm
    exact hwf m (List.mem_of_mem_filter hm)
  · intro bar rh minp
    simp [breakout_pct_ok_above]
  · intro bar rl minp
    simp [breakout_pct_ok_below]
  · intro bar dir rh rl rs hrs
    simp [compute_breakout_close_pct, hrs]
  · intro p hp
    simp [min_breakout_pct_rejects, hp]

/-- Witness for the amended C5 at concrete inputs. -/
theorem c5_zero_range_behavior_witness :
    (0 : ℚ) ≤ 5 ∧
    breakout_pct_ok_above ⟨0, 5, 100, 103, 99, 101⟩ 100 0 none = true ∧
    breakout_pct_ok_below ⟨0, 5, 100, 103, 99, 99⟩ 100 0 none = true ∧
    compute_breakout_close_pct ⟨0, 5, 100, 103, 99, 101⟩ "short" 100 100 0 = 0 ∧
    min_breakout_pct_rejects (some (1/2)) 0 = true := by
  refine ⟨?_, ?_, ?_, ?_, ?_⟩
  · exact c5_zero_range_behavior.1 [⟨0, 1, 5, 0, 2⟩] 10 5 0
      (by simp [opening_range, range_acc]) (by norm_num)
  · exact c5_zero_range_behavior.2.1 ⟨0, 5, 100, 103, 99, 101⟩ 100 none
  · exact c5_zero_range_behavior.2.2.1 ⟨0, 5, 100, 103, 99, 99⟩ 100 none
  · exact c5_zero_range_behavior.2.2.2.1 ⟨0, 5, 100, 103, 99, 101⟩ "short" 100 100 0
      (by norm_num)
  · exact c5_zero_range_behavior.2.2.2.2 (1/2) (by norm_num)

/-- Claim C6: for a chronologically ordered minute-bar stream, the bars
emitted by `FiveMinuteBuilder` are exactly the per-bucket aggregates of the
maximal consecutive runs of minute bars sharing a wall-clock 5-minute
bucket: open from the first constituent, high the maximum of highs, low the
minimum of lows, close from the last constituent (see `agg_bar`), and no
empty bucket is ever emitted. -/
theorem c6_aggregation_correct (ms : List MinuteBar)
    (hs : List.Chain' (fun a c => a.time ≤ c.time) ms) :
    five_minute_bars ms = (group_runs ms).map agg_bar ∧
      ∀ g ∈ group_runs ms, g ≠ [] := by
  refine ⟨?_, group_runs_ne_nil ms⟩
  cases ms with
  | nil => simp [five_minute_bars, fmb_finalize, fmb_flush, fmb_init, group_runs]
  | cons m rest =>
    show fmb_finalize (List.foldl (fun s x => fmb_add x s) (fmb_add m fmb_init) rest) = _
    rw [fmb_add_init m]
    have h := run_from_mid rest [] (bucket m) m [] rfl (by simp) (by simpa using hs)
    simpa using h

/-- Witness for C6 on a concrete four-bar stream spanning three buckets,
one of which is skipped entirely (no empty bucket emitted). -/
theorem c6_aggregation_correct_witness :
    five_minute_bars [⟨0, 1, 5, 0, 2⟩, ⟨1, 2, 7, 1, 3⟩, ⟨6, 3, 4, 2, 4⟩, ⟨17, 9, 10, 8, 9⟩] =
      (group_runs [⟨0, 1, 5, 0, 2⟩, ⟨1, 2, 7, 1, 3⟩, ⟨6, 3, 4, 2, 4⟩, ⟨17, 9, 10, 8, 9⟩]).map
        agg_bar ∧
    ∀ g ∈ group_runs [⟨0, 1, 5, 0, 2⟩, ⟨1, 2, 7, 1, 3⟩, ⟨6, 3, 4, 2, 4⟩,
      (⟨17, 9, 10, 8, 9⟩ : MinuteBar)], g ≠ [] :=
  c6_aggregation_correct _ (by simp)

/-- Counterexample to C7: `evaluate_rrs`'s selection returns the first
grid combination meeting both constraints, not the best one under the
descending `(avg_r, total_r, trades)` ranking — here both summaries
qualify under `min_trades = 1`, `min_avg_r = 0`, the second strictly
dominates the first, yet the first is returned. -/
theorem c7_first_not_best_counterexample :
    evaluate_rrs_select 0 1 [c7_s1, c7_s2] = .ok c7_s1 ∧
    c7_s1.avg_r < c7_s2.avg_r ∧ 1 ≤ c7_s2.trades ∧ (0 : ℚ) ≤ c7_s2.avg_r := by
  refine ⟨?_, by norm_num [c7_s1, c7_s2], by norm_num [c7_s2], by norm_num [c7_s2]⟩
  simp [evaluate_rrs_select, evaluate_rrs_go, better_avg, c7_s1, c7_s2]

/-- Amended C7: whenever at least one grid combination produces at least
one trade, `evaluate_rrs`'s selection returns a result; among combinations
with `trades ≥ min_trades` and `avg_r ≥ min_avg_r` it returns the FIRST
one in grid order (not the best-ranked); if none qualify it falls back,
with a warning, to the combination maximal under `(avg_r, total_r)` among
those that produced trades; and it raises the error only when every
combination produced zero trades. -/
theorem c7_selector_behavior :
    (∀ (mr : ℚ) (mt : ℕ) (l1 : List ComboSummary) (s : ComboSummary)
      (l2 : List ComboSummary),
      (∀ x ∈ l1, x.trades = 0 ∨ ¬ (mt ≤ x.trades ∧ mr ≤ x.avg_r)) →
      s.trades ≠ 0 → mt ≤ s.trades → mr ≤ s.avg_r →
      evaluate_rrs_select mr mt (l1 ++ s :: l2) = .ok s) ∧
    (∀ (mr : ℚ) (mt : ℕ) (l : List ComboSummary),
      (∀ x ∈ l, x.trades = 0 ∨ ¬ (mt ≤ x.trades ∧ mr ≤ x.avg_r)) →
      (∃ x ∈ l, x.trades ≠ 0) →
      ∃ b, evaluate_rrs_select mr mt l = .ok b ∧ b ∈ l ∧ b.trades ≠ 0 ∧
        ∀ x ∈ l, x.trades ≠ 0 → combo_le x b) ∧
    (∀ (mr : ℚ) (mt : ℕ) (l : List ComboSummary) (e : String),
      evaluate_rrs_select mr mt l = .error e → ∀ x ∈ l, x.trades = 0) ∧
    (∀ (mr : ℚ) (mt : ℕ) (l : List ComboSummary),
      (∃ x ∈ l, x.trades ≠ 0) → ∃ b, evaluate_rrs_select mr mt l = .ok b) := by
  refine ⟨?_, ?_, ?_, ?_⟩
  · intro mr mt l1 s l2 hall h0 h1 h2
    exact go_first_qual mr mt l1 s l2 none hall h0 h1 h2
  · intro mr mt l hall hne
    obtain ⟨b, hgo, hc1, _, hc3⟩ := go_fb mr mt l none hall (fun _ => hne)
    obtain ⟨hmem, hbt⟩ := hc1 rfl
    exact ⟨b, hgo, hmem, hbt, hc3⟩
  · intro mr mt l e h
    exact (go_error mr mt l none e h).2
  · intro mr mt l hne
    cases hsel : evaluate_rrs_select mr mt l with
    | ok b => exact ⟨b, rfl⟩
    | error e =>
      obtain ⟨x, hx, hx0⟩ := hne
      exact absurd ((go_error mr mt l none e hsel).2 x hx) hx0

/-- Witness for the amended C7 at concrete inputs. -/
theorem c7_selector_behavior_witness :
    evaluate_rrs_select 0 1 ([] ++ c7_s1 :: [c7_s2]) = .ok c7_s1 ∧
    (∃ b, evaluate_rrs_select 0 1000 [c7_nq] = .ok b ∧ b ∈ [c7_nq] ∧
      b.trades ≠ 0 ∧ ∀ x ∈ [c7_nq], x.trades ≠ 0 → combo_le x b) ∧
    (∀ x ∈ [c7_zero], x.trades = 0) ∧
    (∃ b, evaluate_rrs_select 0 1 [c7_s1] = .ok b) := by
  refine ⟨?_, ?_, ?_, ?_⟩
  · exact c7_selector_behavior.1 0 1 [] c7_s1 [c7_s2] (by simp)
      (by norm_num [c7_s1]) (by norm_num [c7_s1]) (by norm_num [c7_s1])
  · exact c7_selector_behavior.2.1 0 1000 [c7_nq]
      (by intro x hx; right; simp at hx; subst hx; norm_num [c7_nq])
      ⟨c7_nq, by simp, by norm_num [c7_nq]⟩
  · exact c7_selector_behavior.2.2.1 0 1 [c7_zero] "No trades generated for the provided parameters."
      (by simp [evaluate_rrs_select, evaluate_rrs_go, c7_zero])
  · exact c7_selector_behavior.2.2.2 0 1 [c7_s1] ⟨c7_s1, by simp, by norm_num [c7_s1]⟩

/-- Claim C8: in `_run_parameter_combo`, the outcome recorded for an
admitted candidate is always exactly the precomputed result of
`_simulate_trade_from_candidate` on that candidate, the shared `rr` and
entry mode — filter parameters decide only admission.  Consequently two
sweep runs that differ only in their filter thresholds assign identical
simulated outcomes to every candidate admitted by both. -/
theorem c8_outcome_independent_of_filters :
    (∀ (p : FilterParams) (rr : ℚ) (mode : String) (cands : List CandidateTrade)
      (j : ℕ) (tr : TradeResult),
      (j, tr) ∈ (run_combo_day p rr mode 0 run_init cands).collected →
      ∃ c, cands[j]? = some c ∧
        (simulate_trade_from_candidate c rr mode).2.1 = some tr) ∧
    (∀ (p q : FilterParams) (rr : ℚ) (mode : String) (cands : List CandidateTrade)
      (j : ℕ) (t1 t2 : TradeResult),
      (j, t1) ∈ (run_combo_day p rr mode 0 run_init cands).collected →
      (j, t2) ∈ (run_combo_day q rr mode 0 run_init cands).collected →
      t1 = t2) := by
  have sound : ∀ (p : FilterParams) (rr : ℚ) (mode : String)
      (cands : List CandidateTrade) (j : ℕ) (tr : TradeResult),
      (j, tr) ∈ (run_combo_day p rr mode 0 run_init cands).collected →
      ∃ c, cands[j]? = some c ∧
        (simulate_trade_from_candidate c rr mode).2.1 = some tr := by
    intro p rr mode cands j tr h
    rcases run_collected_sound p rr mode cands 0 run_init j tr h with hl | ⟨c, hc1, _, hc3⟩
    · simp [run_init] at hl
    · exact ⟨c, by simpa using hc1, hc3⟩
  refine ⟨sound, ?_⟩
  intro p q rr mode cands j t1 t2 h1 h2
  obtain ⟨c1, hc1, ho1⟩ := sound p rr mode cands j t1 h1
  obtain ⟨c2, hc2, ho2⟩ := sound q rr mode cands j t2 h2
  rw [hc1] at hc2
  injection hc2 with hc
  subst hc
  rw [ho1] at ho2
  injection ho2

/-- Witness for C8: the same candidate admitted by two different filter
settings (no filters vs. `min_breakout_pct = 0`) receives the identical
trade, namely the precomputed `c2w_trade`. -/
theorem c8_outcome_independent_of_filters_witness :
    (∃ c, [({ ex_cand with post_lows := [99, 100] } : CandidateTrade)][(0 : ℕ)]? = some c ∧
      (simulate_trade_from_candidate c 1 "close").2.1 = some c2w_trade) ∧
    c2w_trade = c2w_trade := by
  have hmem : ((0 : ℕ), c2w_trade) ∈
      (run_combo_day ex_params 1 "close" 0 run_init
        [{ ex_cand with post_lows := [99, 100] }]).collected := by
    simp [run_combo_day, candidate_filter_check, ticks_to_stop_ok,
      simulate_trade_from_candidate, sim_with_entry, scan_post, zip3, cand_result,
      ex_params, ex_cand, run_init, run_dir_count, run_bump_dir, c2w_trade]
    norm_num
  have hmem2 : ((0 : ℕ), c2w_trade) ∈
      (run_combo_day { ex_params with min_breakout_pct := some 0 } 1 "close" 0 run_init
        [{ ex_cand with post_lows := [99, 100] }]).collected := by
    simp [run_combo_day, candidate_filter_check, ticks_to_stop_ok,
      simulate_trade_from_candidate, sim_with_entry, scan_post, zip3, cand_result,
      ex_params, ex_cand, run_init, run_dir_count, run_bump_dir, c2w_trade]
    norm_num
  exact ⟨c8_outcome_independent_of_filters.1 ex_params 1 "close" _ 0 c2w_trade hmem,
    c8_outcome_independent_of_filters.2 ex_params
      { ex_params with min_breakout_pct := some 0 } 1 "close" _ 0 c2w_trade c2w_trade
      hmem hmem2⟩

/-- Claim C9: with break-even enabled and its activation threshold strictly
below the target R, in `simulate_trade` of the mnq variant: a bar reaching
the break-even trigger moves the stop to the entry price (first conjunct,
long; the trade continues with the moved stop), any later bar retreating to
the entry price exits at breakeven — reason "BE", exit price = entry, so
the caller's realized R is 0 — even when that bar also reaches the original
stop (second/third conjuncts, long and short), after activation no exit at
the original stop distance is possible at all (fourth/fifth conjuncts),
and the realized R of a breakeven exit is 0 (last conjunct). -/
theorem c9_break_even_priority :
    (∀ (ets : ℕ) (entry risk be_r tp_r stop0 : ℚ) (b : HLBar) (rest : List HLBar),
      0 < risk → 0 < be_r → be_r < tp_r →
      entry + be_r * risk ≤ b.high → ¬ b.low ≤ entry → ¬ entry + tp_r * risk ≤ b.high →
      mnq_go "long" ets entry (entry + tp_r * risk) (entry + be_r * risk) true risk
          stop0 false false (b :: rest) =
        mnq_go "long" ets entry (entry + tp_r * risk) (entry + be_r * risk) true risk
          entry true false rest) ∧
    (∀ (ets : ℕ) (entry tp be_trig risk : ℚ) (b : HLBar) (rest : List HLBar),
      b.low ≤ entry →
      mnq_go "long" ets entry tp be_trig true risk entry true false (b :: rest) =
        some (ets, b.ts, entry, "BE", risk)) ∧
    (∀ (ets : ℕ) (entry tp be_trig risk : ℚ) (b : HLBar) (rest : List HLBar),
      entry ≤ b.high →
      mnq_go "short" ets entry tp be_trig true risk entry true false (b :: rest) =
        some (ets, b.ts, entry, "BE", risk)) ∧
    (∀ (ets : ℕ) (entry tp be_trig risk : ℚ) (bars : List HLBar)
       (e2 ts : ℕ) (px : ℚ) (reason : String) (r : ℚ),
      mnq_go "long" ets entry tp be_trig true risk entry true false bars =
        some (e2, ts, px, reason, r) → reason ≠ "SL") ∧
    (∀ (ets : ℕ) (entry tp be_trig risk : ℚ) (bars : List HLBar)
       (e2 ts : ℕ) (px : ℚ) (reason : String) (r : ℚ),
      mnq_go "short" ets entry tp be_trig true risk entry true false bars =
        some (e2, ts, px, reason, r) → reason ≠ "SL") ∧
    (∀ (side : String) (entry risk : ℚ), mnq_r side entry risk entry = 0) := by
  refine ⟨?_, ?_, ?_, ?_, ?_, ?_⟩
  · intro ets entry risk be_r tp_r stop0 b rest _ _ _ h1 h2 h3
    simp [mnq_go, h1, h2, h3]
  · intro ets entry tp be_trig risk b rest h1
    simp [mnq_go, h1]
  · intro ets entry tp be_trig risk b rest h1
    simp [mnq_go, h1]
  · intro ets entry tp be_trig risk bars
    induction bars with
    | nil =>
      intro e2 ts px reason r h
      simp [mnq_go] at h
    | cons b rest ih =>
      intro e2 ts px reason r h
      by_cases h1 : b.low ≤ entry
      · simp [mnq_go, h1] at h
        obtain ⟨_, _, _, hr, _⟩ := h
        subst hr
        decide
      · by_cases h2 : tp ≤ b.high
        · simp [mnq_go, h1, h2] at h
          obtain ⟨_, _, _, hr, _⟩ := h
          subst hr
          decide
        · simp [mnq_go, h1, h2] at h
          exact ih _ _ _ _ _ h
  · intro ets entry tp be_trig risk bars
    induction bars with
    | nil =>
      intro e2 ts px reason r h
      simp [mnq_go] at h
    | cons b rest ih =>
      intro e2 ts px reason r h
      by_cases h1 : entry ≤ b.high
      · simp [mnq_go, h1] at h
        obtain ⟨_, _, _, hr, _⟩ := h
        subst hr
        decide
      · by_cases h2 : b.low ≤ tp
        · simp [mnq_go, h1, h2] at h
          obtain ⟨_, _, _, hr, _⟩ := h
          subst hr
          decide
        · simp [mnq_go, h1, h2] at h
          exact ih _ _ _ _ _ h
  · intro side entry risk
    simp [mnq_r]

/-- Witness for C9: long entry 100, risk 2, break-even trigger at 0.5 R
(101), target at 2 R (104); the first trail bar (high 101, low 100.5)
activates break-even, the second (low 97, reaching the original stop 98)
exits at breakeven for 0 R. -/
theorem c9_break_even_priority_witness :
    mnq_go "long" 0 100 (100 + 2 * 2) (100 + (1/2) * 2) true 2 98 false false
        [⟨1, 101, 201/2, 101⟩, ⟨2, 100, 97, 98⟩] =
      some (0, 2, 100, "BE", 2) ∧
    mnq_r "long" 100 2 100 = 0 := by
  constructor
  · rw [c9_break_even_priority.1 0 100 2 (1/2) 2 98 ⟨1, 101, 201/2, 101⟩
      [⟨2, 100, 97, 98⟩] (by norm_num) (by norm_num) (by norm_num)
      (by norm_num) (by norm_num) (by norm_num)]
    exact c9_break_even_priority.2.1 0 100 (100 + 2 * 2) (100 + (1/2) * 2) 2
      ⟨2, 100, 97, 98⟩ [] (by norm_num)
  · exact c9_break_even_priority.2.2.2.2.2 "long" 100 2

/-- Claim C10: in `generate_trade_log`, when an active trade resolves as
"cancel" on a later bar, the per-day counter `trades_taken` and the
per-direction count are decremented back (floored at 0) to their
pre-entry values, no `TradeResult` is appended, and the active trade is
discarded. -/
theorem c10_cancel_restores_counters :
    ∀ (day : ℕ) (rr : ℚ) (bar : Bar) (st : GenLogState) (t : ActiveTrade) (v w : ℕ),
      st.active_trade = some t → t.entry_bar_end < bar.endT →
      check_trade_exit bar t false = .cancel →
      st.trades_taken = v + 1 → glog_dir_count st t.direction = w + 1 →
      (process_active_bar day rr bar st).trades = st.trades ∧
      (process_active_bar day rr bar st).trades_taken = v ∧
      glog_dir_count (process_active_bar day rr bar st) t.direction = w ∧
      (process_active_bar day rr bar st).active_trade = none := by
  intro day rr bar st t v w h1 h2 h3 hv hw
  by_cases hd : t.direction = "long" <;>
    simp_all [process_active_bar, glog_dec_dir, glog_dir_count, hd]

/-- Witness for C10: a state with one long trade taken and an active long
trade whose first later bar touches both stop and target; the cancel
restores both counters to 0 and appends nothing. -/
theorem c10_cancel_restores_counters_witness :
    (process_active_bar 0 2 ⟨0, 5, 100, 103, 97, 100⟩
        ⟨[], 1, 1, 0, some ex_trade⟩).trades = ([] : List TradeResult) ∧
    (process_active_bar 0 2 ⟨0, 5, 100, 103, 97, 100⟩
        ⟨[], 1, 1, 0, some ex_trade⟩).trades_taken = 0 ∧
    glog_dir_count (process_active_bar 0 2 ⟨0, 5, 100, 103, 97, 100⟩
        ⟨[], 1, 1, 0, some ex_trade⟩) ex_trade.direction = 0 ∧
    (process_active_bar 0 2 ⟨0, 5, 100, 103, 97, 100⟩
        ⟨[], 1, 1, 0, some ex_trade⟩).active_trade = none := by
  exact c10_cancel_restores_counters 0 2 ⟨0, 5, 100, 103, 97, 100⟩
    ⟨[], 1, 1, 0, some ex_trade⟩ ex_trade 0 0 rfl (by norm_num [ex_trade])
    (by simp [check_trade_exit, ex_trade]; norm_num) rfl
    (by simp [glog_dir_count, ex_trade])
